import Mathlib

/-!
Shallow embedding of the schema engine of `app.js` (schema form builder):
the value model, path model (`deepGet` / `deepSet` / `pathKey`), reference
resolver (`jsonPointerGet` / `resolveSchema`), `allOf` merger
(`mergeSchemas`), root picker (`pickRootSchema`), type inferencer
(`inferType`), default synthesizer (`defaultFor`) and recursive validator
(`validateAgainst`).

Modelling conventions:
* JavaScript values reachable from JSON input are modelled by `JVal`;
  objects are insertion-ordered association lists (JavaScript objects have
  unique keys; where uniqueness matters a `keysNodup` hypothesis appears).
  Integer-like property names (which JavaScript enumerates first) do not
  occur in the inputs of any theorem below, so plain insertion order is used.
* Numbers are rationals (no NaN / Infinity / -0: none is JSON-expressible,
  and the engine never fabricates one from JSON input).
* `undefined` is the distinguished `JVal.undef`; property access on a
  missing key yields it, as in JavaScript.
* Regular expressions are abstracted by two oracle parameters of the
  validator: `rc pat` (does `new RegExp(pat)` compile?) and `rm pat s`
  (does the compiled pattern test `s` successfully?), mirroring the
  `try/catch` around the pattern check.
* The mutually recursive walks of the engine can diverge on cyclic `$ref`
  chains (the source has no cycle detection), so `defaultFor` and
  `validateAgainst` take a fuel argument; exhausted fuel yields a sentinel
  that no theorem's hypotheses allow to surface.
* String indexing by code units and property access on string primitives
  other than via object/array containers are outside the model (no claim
  touches them): reading a property of a scalar yields `undef`.
-/

inductive JVal : Type where
  | undef : JVal
  | null : JVal
  | bool : Bool → JVal
  | num : Rat → JVal
  | str : String → JVal
  | arr : List JVal → JVal
  | obj : List (String × JVal) → JVal
deriving Repr

namespace SchemaEngine

open JVal

/-- First-occurrence lookup in an object's field list (JavaScript objects
have unique keys, so first = only occurrence on faithful inputs). -/
def jLookup : List (String × JVal) → String → Option JVal
  | [], _ => none
  | (k, v) :: rest, key => if k = key then some v else jLookup rest key

/-- JavaScript property assignment `o[k] = v` on an object's field list:
updates the first occurrence in place, else appends (insertion order). -/
def jsAssign : List (String × JVal) → String × JVal → List (String × JVal)
  | [], kv => [kv]
  | (k, v) :: rest, (key, value) =>
      if k = key then (k, value) :: rest else (k, v) :: jsAssign rest (key, value)

/-- Whether the keys of a field list are duplicate-free (always true for a
field list obtained by parsing JSON). -/
def keysNodup : List (String × JVal) → Bool
  | [] => true
  | (k, _) :: rest => !(rest.any (fun kv => kv.1 == k)) && keysNodup rest

/-- Removal of one field from a field list, as done by the destructuring
`const { $ref, ...rest } = node`. -/
def removeField : List (String × JVal) → String → List (String × JVal)
  | [], _ => []
  | (k, v) :: rest, k0 =>
      if k = k0 then removeField rest k0 else (k, v) :: removeField rest k0

/-- JavaScript truthiness of a value. -/
def jTruthy : JVal → Bool
  | .undef => false
  | .null => false
  | .bool b => b
  | .num q => q != 0
  | .str s => s != ""
  | .arr _ => true
  | .obj _ => true

/-- The decimal digit a character denotes, if any. -/
def charToDigit (c : Char) : Option Nat :=
  if 48 ≤ c.toNat && c.toNat ≤ 57 then some (c.toNat - 48) else none

/-- Parse a non-empty all-digit character list as a natural number. -/
def digitsToNat : List Char → Nat → Option Nat
  | [], acc => some acc
  | c :: rest, acc =>
      match charToDigit c with
      | some d => digitsToNat rest (acc * 10 + d)
      | none => none

/-- Parse a string of decimal digits (the behaviour of `Number`/`parseInt`
on an all-digit string, used below for canonical index detection). -/
def sToNat (s : String) : Option Nat :=
  match s.data with
  | [] => none
  | l => digitsToNat l 0

/-- Whether `s` starts with `pre`. -/
def sStartsWith (s pre : String) : Bool :=
  pre.data.isPrefixOf s.data

/-- Split a character list on a separator character (the semantics of
`String.prototype.split` with a one-character separator). -/
def splitOnChar (sep : Char) : List Char → List (List Char)
  | [] => [[]]
  | c :: rest =>
      let r := splitOnChar sep rest
      if c = sep then [] :: r
      else
        match r with
        | h :: t => (c :: h) :: t
        | [] => [[c]]

/-- Split a string on a separator character. -/
def sSplitOn (sep : Char) (s : String) : List String :=
  (splitOnChar sep s.data).map (fun l => String.mk l)

/-- Global, left-to-right, non-overlapping replacement of the two-character
pattern `a b` by `rep` (the semantics of `replace(/pat/g, rep)` for the
engine's two literal patterns `~1` and `~0`). -/
def replacePair (a b : Char) (rep : List Char) : List Char → List Char
  | [] => []
  | [c] => [c]
  | c :: c2 :: rest =>
      if c = a && c2 = b then rep ++ replacePair a b rep rest
      else c :: replacePair a b rep (c2 :: rest)

/-- Global replacement of a two-character pattern in a string. -/
def sReplace (s : String) (a b : Char) (rep : String) : String :=
  String.mk (replacePair a b rep.data s.data)

/-- Whether a string is a canonical array index ("0", "17", ... without
leading zeros), as used by JavaScript array element access via strings. -/
def canonIdx (s : String) : Option Nat :=
  match sToNat s with
  | some n => if toString n = s then some n else none
  | none => none

/-- JavaScript property read `v[k]` for a string key `k`, restricted to the
JSON-value fragment: object field lookup, array element access through a
canonical index string plus `length`; any other access yields `undefined`
(string code-unit indexing is outside the model). -/
def jIndexStr (v : JVal) (k : String) : JVal :=
  match v with
  | .obj fs => (jLookup fs k).getD .undef
  | .arr xs =>
      if k = "length" then .num xs.length
      else
        match canonIdx k with
        | some i => xs.getD i .undef
        | none => .undef
  | _ => (.undef)

/-- JavaScript property read `v[i]` for a numeric key `i` (the key is the
decimal string of `i`). -/
def jIndexNat (v : JVal) (i : Nat) : JVal :=
  match v with
  | .arr xs => xs.getD i .undef
  | .obj fs => (jLookup fs (toString i)).getD .undef
  | _ => (.undef)

/-- Own-enumerable entries of a value, as produced by `Object.entries` and
by object spread: an object's fields, an array's elements keyed by index;
primitives contribute nothing (string spreading is outside the model). -/
def jEntries : JVal → List (String × JVal)
  | .obj fs => fs
  | .arr xs => (List.range xs.length).zip xs |>.map (fun p => (toString p.1, p.2))
  | _ => []

/-- The elements an iterable value yields when spread (`[...x]`) or walked
with `for..of`: an array gives its elements; anything else in the JSON
fragment yields nothing (spreading a non-iterable throws in JavaScript and
never happens on the inputs of the theorems below). -/
def iterElems : JVal → List JVal
  | .arr xs => xs
  | _ => []

/-- SameValueZero equality, as used by `Array.prototype.includes` and by
`Set` membership. Two distinct objects/arrays are never SameValueZero-equal
(reference semantics; the engine only ever compares values originating from
distinct parses), so composite values compare unequal here. -/
def jsSameValueZero : JVal → JVal → Bool
  | .undef, .undef => true
  | .null, .null => true
  | .bool a, .bool b => a == b
  | .num a, .num b => a == b
  | .str a, .str b => a == b
  | _, _ => false

/-- Keep the first occurrence of each SameValueZero-class, in order (the
element list of `new Set(l)`), with an explicit structural fuel so that
applications reduce; the fuel never runs out when it is at least the list
length, which the wrapper `jsDedup` supplies. -/
def jsDedupF : Nat → List JVal → List JVal
  | _, [] => []
  | 0, l => l
  | fuel + 1, x :: xs => x :: jsDedupF fuel (xs.filter (fun y => !jsSameValueZero x y))

/-- The element list of `new Set(l)`: first occurrences, in order. -/
def jsDedup (l : List JVal) : List JVal :=
  jsDedupF l.length l

/-- Decimal rendering of a number. Integral values render exactly as
JavaScript's `String(n)`; the engine's messages in every theorem below only
ever render integral numbers, so non-integral values use a `num/den`
fallback rather than float formatting. -/
def jsNumToString (q : Rat) : String :=
  if q.den = 1 then toString q.num else toString q.num ++ "/" ++ toString q.den

mutual
/-- JavaScript `String(v)` on the JSON-value fragment. -/
def jsValToString : JVal → String
  | .undef => "undefined"
  | .null => "null"
  | .bool true => "true"
  | .bool false => "false"
  | .num q => jsNumToString q
  | .str s => s
  | .arr xs => jsListJoin xs
  | .obj _ => "[object Object]"

/-- `Array.prototype.join(",")`, where `undefined` and `null` elements
render as the empty string. -/
def jsListJoin : List JVal → String
  | [] => ""
  | [.undef] => ""
  | [.null] => ""
  | [v] => jsValToString v
  | .undef :: rest => "," ++ jsListJoin rest
  | .null :: rest => "," ++ jsListJoin rest
  | v :: rest => jsValToString v ++ "," ++ jsListJoin rest
end

/-- `Array.prototype.join(sep)` for an arbitrary separator, used by the
validator's enum messages (`node.enum.join(", ")`). -/
def jsListJoinSep (sep : String) : List JVal → String
  | [] => ""
  | [v] => jsElemString v
  | v :: rest => jsElemString v ++ sep ++ jsListJoinSep sep rest
where
  /-- Element rendering inside `join`: `undefined`/`null` become empty. -/
  jsElemString : JVal → String
    | .undef => ""
    | .null => ""
    | v => jsValToString v

/-- A path token: a property name or an array index (the two token shapes
the form builder produces: property names and `forEach` indices). -/
inductive JTok : Type where
  | name : String → JTok
  | idx : Nat → JTok
deriving Repr, DecidableEq

/-- The string a token denotes when used as a property key (`String(p)`). -/
def JTok.key : JTok → String
  | .name s => s
  | .idx i => toString i

/-- Property read through a token. -/
def getTok (v : JVal) : JTok → JVal
  | .name s => jIndexStr v s
  | .idx i => jIndexNat v i

/-- `pathKey(path)`: the stable key for meta maps,
`path.map(String).join("/")`. -/
def pathKey (path : List JTok) : String :=
  String.intercalate "/" (path.map JTok.key)

/-- `deepGet(obj, path)`: walk the path, returning `undefined` the moment
the current value is `null`/`undefined` (the source's loose `cur == null`
guard); otherwise index and continue. -/
def deepGet (v : JVal) : List JTok → JVal
  | [] => v
  | t :: rest =>
      match v with
      | .undef => .undef
      | .null => .undef
      | _ => deepGet (getTok v t) rest

/-- Element write `xs[i] = x` on an array, extending with holes
(`undefined`) when `i` is beyond the current length. -/
def listSet (xs : List JVal) (i : Nat) (x : JVal) : List JVal :=
  if i < xs.length then xs.set i x
  else xs ++ List.replicate (i - xs.length) .undef ++ [x]

/-- Property write `v[t] = x` through a token. `none` models the cases the
engine never exercises and JavaScript either rejects or leaves the JSON
fragment: a write on a primitive (a strict-mode TypeError) and a
non-index string key on an array (a non-element property). -/
def setTok (v : JVal) (t : JTok) (x : JVal) : Option JVal :=
  match v, t with
  | .obj fs, t => some (.obj (jsAssign fs (t.key, x)))
  | .arr xs, .idx i => some (.arr (listSet xs i x))
  | .arr xs, .name s =>
      match canonIdx s with
      | some i => some (.arr (listSet xs i x))
      | none => none
  | _, _ => none

/-- `deepSet(obj, path, value)`: walk all but the last token, replacing any
intermediate that is not an object/array (the source's
`typeof cur[p] !== "object" || cur[p] == null` check, which keeps arrays
and replaces `null`) by a fresh `{}`, then assign the last token. On the
empty path the source assigns `cur[path[-1]]`, i.e. `cur[undefined]`:
the property named `"undefined"`. -/
def deepSet (v : JVal) : List JTok → JVal → Option JVal
  | [], x => setTok v (.name "undefined") x
  | [t], x => setTok v t x
  | t :: rest, x =>
      let child := getTok v t
      let child' := match child with
        | .obj fs => JVal.obj fs
        | .arr xs => JVal.arr xs
        | _ => JVal.obj []
      match deepSet child' rest x with
      | some sub => setTok v t sub
      | none => none

/-- `jsonPointerGet(root, pointer)`: strip a leading `#`, split on `/`,
drop empty segments, unescape `~1` then `~0`, and `deepGet`. -/
def jsonPointerGet (root : JVal) (ptr : String) : JVal :=
  let p := if sStartsWith ptr "#" then ptr.drop 1 else ptr
  let parts := ((sSplitOn '/' p).filter (fun s => s ≠ "")).map
    (fun s => sReplace (sReplace s '~' '1' "/") '~' '0' "~")
  deepGet root (parts.map JTok.name)

/-- Object spread `{ ...a, ...b }` over two entry lists: assign all of
`a`'s entries, then all of `b`'s, later assignments overriding earlier
ones in place. -/
def mergeSpread (a b : List (String × JVal)) : List (String × JVal) :=
  (a ++ b).foldl jsAssign []

/-- `resolveSchema(schemaRoot, node)`: non-objects are returned as is; a
node whose `$ref` is a truthy string starting with `#/` is dereferenced
once — a falsy target returns the node unchanged, otherwise the result is
the target spread first, overlaid by the node's own fields minus `$ref`. -/
def resolveSchema (schemaRoot node : JVal) : JVal :=
  match node with
  | .obj fs =>
      match jLookup fs "$ref" with
      | some (.str r) =>
          if sStartsWith r "#/" then
            let target := jsonPointerGet schemaRoot r
            if !jTruthy target then node
            else .obj (mergeSpread (jEntries target) (removeField fs "$ref"))
          else node
      | _ => node
  | _ => node

/-- `mergeSchemas(a, b)`: shallow spread `{ ...a, ...b }`, then, when
either side's `properties` is truthy, a one-level union of the two
`properties` maps (later wins per key), and, when either side's `required`
is truthy, the SameValueZero-deduplicated union of the two lists. -/
def mergeSchemas (a b : JVal) : JVal :=
  let out0 := mergeSpread (jEntries a) (jEntries b)
  let aProps := jIndexStr a "properties"
  let bProps := jIndexStr b "properties"
  let out1 :=
    if jTruthy aProps || jTruthy bProps then
      jsAssign out0 ("properties",
        .obj (mergeSpread (jEntries (if jTruthy aProps then aProps else .obj []))
                          (jEntries (if jTruthy bProps then bProps else .obj []))))
    else out0
  let aReq := jIndexStr a "required"
  let bReq := jIndexStr b "required"
  let out2 :=
    if jTruthy aReq || jTruthy bReq then
      jsAssign out1 ("required",
        .arr (jsDedup (iterElems (if jTruthy aReq then aReq else .arr []) ++
                       iterElems (if jTruthy bReq then bReq else .arr []))))
    else out1
  .obj out2

/-- The clamp `Math.max(0, Math.min(idx, len - 1))` both `pickRootSchema`
and the validator's `oneOf` dispatch apply to a stored branch index before
using it. -/
def jsClampIdx (idx : Int) (len : Nat) : Nat :=
  (max 0 (min idx ((len : Int) - 1))).toNat

/-- `pickRootSchema(schema)` with the document-level `oneOf` index made
explicit: when `schema.oneOf` is a non-empty array, resolve the branch at
the clamped index; otherwise return the schema itself. -/
def pickRootSchema (schema : JVal) (activeOneOfIndex : Int) : JVal :=
  match jIndexStr schema "oneOf" with
  | .arr branches =>
      if branches.length ≠ 0 then
        resolveSchema schema (branches.getD (jsClampIdx activeOneOfIndex branches.length) .undef)
      else schema
  | _ => schema

/-- `inferType(node)`: a truthy `type` is returned verbatim (first element
when it is an array); else truthy `properties`/`additionalProperties` give
"object"; else truthy `items` gives "array"; else a truthy `enum` gives
"number" when its first element is a number and "string" otherwise; else
"string". -/
def inferType (node : JVal) : JVal :=
  let t := jIndexStr node "type"
  if jTruthy t then
    match t with
    | .arr xs => xs.getD 0 .undef
    | _ => t
  else if jTruthy (jIndexStr node "properties") ||
          jTruthy (jIndexStr node "additionalProperties") then .str "object"
  else if jTruthy (jIndexStr node "items") then .str "array"
  else if jTruthy (jIndexStr node "enum") then
    match jIndexNat (jIndexStr node "enum") 0 with
    | .num _ => .str "number"
    | _ => .str "string"
  else .str "string"

/-- Whether a value is `undefined`. -/
def isUndef : JVal → Bool
  | .undef => true
  | _ => false

/-- Strict string comparison `v === lit` for a value and a string literal. -/
def jIsStr : JVal → String → Bool
  | .str s, t => s == t
  | _, _ => false

/-- The whitespace characters `Number(string)` strips (the common ASCII
ones; exotic Unicode whitespace is outside the model). -/
def jsWhitespace (c : Char) : Bool :=
  c = ' ' || c = '\t' || c = '\n' || c = '\r'

/-- JavaScript `Number(string)` on the grammar JSON data exercises: empty
or blank strings give 0, otherwise an optional sign followed by decimal
digits with at most one point. Exponents, hex and `Infinity` are outside
the model; `none` stands for NaN. -/
def jsStrToNumber (s : String) : Option Rat :=
  let t := String.mk ((((s.data.dropWhile jsWhitespace).reverse).dropWhile
    jsWhitespace).reverse)
  if t = "" then some 0
  else
    let (sign, u) : Rat × String :=
      if sStartsWith t "-" then (-1, t.drop 1)
      else if sStartsWith t "+" then (1, t.drop 1) else (1, t)
    let allDigits : String → Bool := fun w => w.data.all (fun c => (charToDigit c).isSome)
    match sSplitOn '.' u with
    | [ip] =>
        if ip ≠ "" && allDigits ip then
          some (sign * (((sToNat ip).getD 0 : Nat) : Rat))
        else none
    | [ip, fp] =>
        if (ip ≠ "" || fp ≠ "") && allDigits ip && allDigits fp then
          some (sign * ((((sToNat ip).getD 0 : Nat) : Rat) +
            (((sToNat fp).getD 0 : Nat) : Rat) / ((10 : Rat) ^ fp.data.length)))
        else none
    | _ => none

/-- JavaScript numeric coercion `Number(v)` on the JSON-value fragment
(`none` stands for NaN). -/
def jsToNumber : JVal → Option Rat
  | .undef => none
  | .null => some 0
  | .bool b => some (if b then 1 else 0)
  | .num q => some q
  | .str s => jsStrToNumber s
  | .arr xs => jsStrToNumber (jsListJoin xs)
  | .obj _ => none

/-- The comparison `v < m` against a number, via numeric coercion; NaN
compares false. -/
def jsLtNum (v : JVal) (m : Rat) : Bool :=
  match jsToNumber v with
  | some x => x < m
  | none => false

/-- The comparison `v > m` against a number, via numeric coercion; NaN
compares false. -/
def jsGtNum (v : JVal) (m : Rat) : Bool :=
  match jsToNumber v with
  | some x => x > m
  | none => false

/-- `Number.isInteger(v)`. -/
def jsIsInteger : JVal → Bool
  | .num q => q.den == 1
  | _ => false

/-- First-occurrence lookup in the field-level `oneOf` selection store
(`state.inlineOneOf`, a `Map` from location key to chosen index). -/
def lookupSel : List (String × Int) → String → Option Int
  | [], _ => none
  | (k, i) :: rest, key => if k = key then some i else lookupSel rest key

/-- The truthy-or-default idiom `x || dflt`. -/
def truthyOr (x dflt : JVal) : JVal :=
  if jTruthy x then x else dflt

/-- `defaultFor(node, schemaRoot)` with fuel (the source recurses through
`$ref` resolution and can diverge on cyclic references): resolve, return a
present `default` verbatim, else synthesize from the first `oneOf` branch,
else the first `enum` literal, else dispatch on the inferred type —
required properties only for objects (an empty object when the node has no
named properties but a truthy `additionalProperties`), empty array, false,
`minimum`-or-0, empty string. -/
def defaultFor (schemaRoot : JVal) : Nat → JVal → JVal
  | 0, _ => .undef
  | fuel + 1, node0 =>
    let node := resolveSchema schemaRoot node0
    let d := jIndexStr node "default"
    if !isUndef d then d
    else
      match jIndexStr node "oneOf" with
      | .arr (b :: _) => defaultFor schemaRoot fuel b
      | _ =>
        match jIndexStr node "enum" with
        | .arr (e :: _) => e
        | _ =>
          let type := inferType node
          if jIsStr type "object" then
            let props := truthyOr (jIndexStr node "properties") (.obj [])
            let req := iterElems (truthyOr (jIndexStr node "required") (.arr []))
            let out := (jEntries props).foldl
              (fun acc kv =>
                if req.any (fun r => jsSameValueZero r (.str kv.1)) then
                  jsAssign acc (kv.1, defaultFor schemaRoot fuel kv.2)
                else acc) []
            if (jEntries props).isEmpty && jTruthy (jIndexStr node "additionalProperties") then
              .obj []
            else .obj out
          else if jIsStr type "array" then .arr []
          else if jIsStr type "boolean" then .bool false
          else if jIsStr type "integer" || jIsStr type "number" then
            match jIndexStr node "minimum" with
            | .num m => .num m
            | _ => .num 0
          else .str ""

/-- `validateAgainst(schemaRoot, node, value, pathStr, errs)` with fuel,
returning the pushed violations in order. `rc`/`rm` are the regular
expression oracles (compile success and test result); `store` is the
field-level `oneOf` selection map `state.inlineOneOf`. Exhausted fuel
yields a sentinel message no theorem lets surface. -/
def validateAgainst (rc : String → Bool) (rm : String → String → Bool)
    (store : List (String × Int)) (schemaRoot : JVal) :
    Nat → JVal → JVal → String → List String
  | 0, _, _, pathStr => [pathStr ++ " validator fuel exhausted"]
  | fuel + 1, node0, value, pathStr =>
    let node := resolveSchema schemaRoot node0
    match jIndexStr node "oneOf" with
    | .arr (b0 :: bs) =>
        let branches := b0 :: bs
        let idx := (lookupSel store pathStr).getD 0
        let clamped := jsClampIdx idx branches.length
        validateAgainst rc rm store schemaRoot fuel (branches.getD clamped .undef) value pathStr
    | _ =>
      let type := inferType node
      if isUndef value then []
      else if jIsStr type "object" then
        match value with
        | .obj vfs =>
            let props := truthyOr (jIndexStr node "properties") (.obj [])
            let req := iterElems (truthyOr (jIndexStr node "required") (.arr []))
            let errsReq := req.filterMap (fun r =>
              let k := jsValToString r
              if isUndef (jIndexStr (.obj vfs) k) then
                some (pathStr ++ "." ++ k ++ " is required")
              else none)
            let errsProps := (jEntries props).flatMap (fun kv =>
              let v := jIndexStr (.obj vfs) kv.1
              if isUndef v then []
              else validateAgainst rc rm store schemaRoot fuel kv.2 v (pathStr ++ "." ++ kv.1))
            let ap := jIndexStr node "additionalProperties"
            let errsAp :=
              match ap with
              | .obj _ | .arr _ =>
                  let apr := resolveSchema schemaRoot ap
                  vfs.flatMap (fun kv =>
                    if jTruthy (jIndexStr props kv.1) then []
                    else validateAgainst rc rm store schemaRoot fuel apr kv.2
                      (pathStr ++ "." ++ kv.1))
              | _ => []
            errsReq ++ errsProps ++ errsAp
        | _ => [pathStr ++ " must be an object"]
      else if jIsStr type "array" then
        match value with
        | .arr xs =>
            let e1 := match jIndexStr node "minItems" with
              | .num m => if (xs.length : Rat) < m then
                  [pathStr ++ " minItems " ++ jsNumToString m] else []
              | _ => []
            let e2 := match jIndexStr node "maxItems" with
              | .num m => if (xs.length : Rat) > m then
                  [pathStr ++ " maxItems " ++ jsNumToString m] else []
              | _ => []
            let e3 :=
              if jTruthy (jIndexStr node "items") then
                ((List.range xs.length).zip xs).flatMap (fun p =>
                  validateAgainst rc rm store schemaRoot fuel (jIndexStr node "items") p.2
                    (pathStr ++ "[" ++ toString p.1 ++ "]"))
              else []
            e1 ++ e2 ++ e3
        | _ => [pathStr ++ " must be an array"]
      else if jIsStr type "boolean" then
        match value with
        | .bool _ => []
        | _ => [pathStr ++ " must be boolean"]
      else if jIsStr type "number" || jIsStr type "integer" then
        let e1 := match value with
          | .num _ => []
          | _ => [pathStr ++ " must be a number"]
        let e2 := if jIsStr type "integer" && !jsIsInteger value then
            [pathStr ++ " must be an integer"] else []
        let e3 := match jIndexStr node "minimum" with
          | .num m => if jsLtNum value m then
              [pathStr ++ " minimum " ++ jsNumToString m] else []
          | _ => []
        let e4 := match jIndexStr node "maximum" with
          | .num m => if jsGtNum value m then
              [pathStr ++ " maximum " ++ jsNumToString m] else []
          | _ => []
        let e5 := match jIndexStr node "enum" with
          | .arr es =>
              if es.any (fun e => jsSameValueZero e value) then []
              else [pathStr ++ " must be one of " ++ jsListJoinSep ", " es]
          | _ => []
        e1 ++ e2 ++ e3 ++ e4 ++ e5
      else
        match value with
        | .str s =>
            let ep :=
              if jTruthy (jIndexStr node "pattern") then
                let pat := jsValToString (jIndexStr node "pattern")
                if rc pat then
                  if !rm pat s then [pathStr ++ " does not match pattern"] else []
                else []
              else []
            let ee := match jIndexStr node "enum" with
              | .arr es =>
                  if es.any (fun e => jsSameValueZero e (.str s)) then []
                  else [pathStr ++ " must be one of " ++ jsListJoinSep ", " es]
              | _ => []
            ep ++ ee
        | _ => [pathStr ++ " must be a string"]

/-- Left-biased choice on optional lookup results. -/
def optOr (x y : Option JVal) : Option JVal :=
  match x with
  | some v => some v
  | none => y

theorem optOr_none_left (y : Option JVal) : optOr none y = y := rfl

theorem optOr_some_left (v : JVal) (y : Option JVal) : optOr (some v) y = some v := rfl

theorem optOr_none_right (x : Option JVal) : optOr x none = x := by
  cases x <;> rfl

theorem jLookup_append (a b : List (String × JVal)) (k : String) :
    jLookup (a ++ b) k = optOr (jLookup a k) (jLookup b k) := by
  induction a with
  | nil => simp [jLookup, optOr]
  | cons kv rest ih =>
      obtain ⟨k0, v0⟩ := kv
      by_cases h : k0 = k <;> simp [jLookup, h, ih, optOr]

theorem jsAssign_lookup (fs : List (String × JVal)) (k0 : String) (v0 : JVal) (k : String) :
    jLookup (jsAssign fs (k0, v0)) k = if k0 = k then some v0 else jLookup fs k := by
  induction fs with
  | nil => simp [jsAssign, jLookup]
  | cons kv rest ih =>
      obtain ⟨k1, v1⟩ := kv
      by_cases h1 : k1 = k0
      · subst h1
        by_cases h2 : k1 = k <;> simp [jsAssign, jLookup, h2]
      · by_cases h2 : k1 = k
        · subst h2
          simp [jsAssign, jLookup, h1, Ne.symm h1]
        · simp [jsAssign, jLookup, h1, h2, ih]

theorem foldl_assign_lookup (l : List (String × JVal)) (acc : List (String × JVal))
    (k : String) :
    jLookup (l.foldl jsAssign acc) k = optOr (jLookup l.reverse k) (jLookup acc k) := by
  induction l generalizing acc with
  | nil => simp [jLookup, optOr]
  | cons kv rest ih =>
      obtain ⟨k0, v0⟩ := kv
      simp only [List.foldl_cons, List.reverse_cons, ih, jLookup_append]
      cases h : jLookup rest.reverse k <;>
        simp [optOr, jsAssign_lookup, jLookup] <;>
        by_cases h0 : k0 = k <;> simp [h0, optOr]

theorem jLookup_eq_none (l : List (String × JVal)) (k : String)
    (h : ∀ kv ∈ l, kv.1 ≠ k) : jLookup l k = none := by
  induction l with
  | nil => rfl
  | cons kv rest ih =>
      obtain ⟨k0, v0⟩ := kv
      have hk0 : k0 ≠ k := h (k0, v0) (List.mem_cons_self _ _)
      simp only [jLookup, if_neg hk0]
      exact ih (fun kv hkv => h kv (List.mem_cons_of_mem _ hkv))

theorem keysNodup_cons (k0 : String) (v0 : JVal) (l : List (String × JVal)) :
    keysNodup ((k0, v0) :: l) = true ↔
      (∀ kv ∈ l, kv.1 ≠ k0) ∧ keysNodup l = true := by
  simp [keysNodup, List.any_eq_true]

theorem jLookup_reverse (l : List (String × JVal)) (k : String)
    (h : keysNodup l = true) : jLookup l.reverse k = jLookup l k := by
  induction l with
  | nil => rfl
  | cons kv rest ih =>
      obtain ⟨k0, v0⟩ := kv
      obtain ⟨hne, hnd⟩ := (keysNodup_cons k0 v0 rest).mp h
      simp only [List.reverse_cons, jLookup_append, ih hnd]
      by_cases hk : k0 = k
      · subst hk
        have : jLookup rest k0 = none := jLookup_eq_none rest k0 hne
        simp [this, jLookup, optOr]
      · simp [jLookup, hk, optOr_none_right]

theorem mergeSpread_lookup (a b : List (String × JVal)) (k : String)
    (ha : keysNodup a = true) (hb : keysNodup b = true) :
    jLookup (mergeSpread a b) k = optOr (jLookup b k) (jLookup a k) := by
  unfold mergeSpread
  rw [foldl_assign_lookup]
  simp only [List.reverse_append, jLookup_append, jLookup_reverse a k ha,
    jLookup_reverse b k hb, jLookup]
  cases jLookup b k <;> cases jLookup a k <;> rfl

theorem removeField_mem (fs : List (String × JVal)) (k0 : String) (kv : String × JVal)
    (h : kv ∈ removeField fs k0) : kv ∈ fs ∧ kv.1 ≠ k0 := by
  induction fs with
  | nil => cases h
  | cons kv1 rest ih =>
      obtain ⟨k1, v1⟩ := kv1
      by_cases h1 : k1 = k0
      · simp only [removeField, if_pos h1] at h
        exact ⟨List.mem_cons_of_mem _ (ih h).1, (ih h).2⟩
      · simp only [removeField, if_neg h1] at h
        rcases List.mem_cons.mp h with heq | hmem
        · subst heq
          exact ⟨List.mem_cons_self _ _, h1⟩
        · exact ⟨List.mem_cons_of_mem _ (ih hmem).1, (ih hmem).2⟩

theorem removeField_lookup_ne (fs : List (String × JVal)) (k0 k : String)
    (h : k ≠ k0) : jLookup (removeField fs k0) k = jLookup fs k := by
  induction fs with
  | nil => rfl
  | cons kv rest ih =>
      obtain ⟨k1, v1⟩ := kv
      by_cases h1 : k1 = k0
      · subst h1
        have hk : k1 ≠ k := fun hk => h hk.symm
        simp only [removeField, if_pos rfl, jLookup, if_neg hk]
        exact ih
      · by_cases h2 : k1 = k
        · subst h2
          simp [removeField, if_neg h1, jLookup, if_neg h]
        · simp only [removeField, if_neg h1, jLookup, if_neg h2]
          exact ih

theorem removeField_lookup_self (fs : List (String × JVal)) (k0 : String) :
    jLookup (removeField fs k0) k0 = none :=
  jLookup_eq_none _ _ (fun kv hkv => (removeField_mem fs k0 kv hkv).2)

theorem keysNodup_removeField (l : List (String × JVal)) (k0 : String)
    (h : keysNodup l = true) : keysNodup (removeField l k0) = true := by
  induction l with
  | nil => rfl
  | cons kv rest ih =>
      obtain ⟨k1, v1⟩ := kv
      obtain ⟨hne, hnd⟩ := (keysNodup_cons k1 v1 rest).mp h
      by_cases h1 : k1 = k0
      · simpa only [removeField, if_pos h1] using ih hnd
      · simp only [removeField, if_neg h1]
        refine (keysNodup_cons k1 v1 _).mpr ⟨?_, ih hnd⟩
        intro kv' hkv'
        exact hne kv' (removeField_mem rest k0 kv' hkv').1

theorem mem_lookup_of_nodup (l : List (String × JVal)) (k : String) (v : JVal)
    (hnd : keysNodup l = true) (hmem : (k, v) ∈ l) : jLookup l k = some v := by
  induction l with
  | nil => cases hmem
  | cons kv rest ih =>
      obtain ⟨k0, v0⟩ := kv
      obtain ⟨hne, hnd'⟩ := (keysNodup_cons k0 v0 rest).mp hnd
      rcases List.mem_cons.mp hmem with heq | hmem'
      · cases heq
        simp [jLookup]
      · have hk0 : k0 ≠ k := fun hk => hne (k, v) hmem' (by simpa using hk.symm)
        simp only [jLookup, if_neg hk0]
        exact ih hnd' hmem'

/-! Concrete schema documents used by the end-to-end facts below. -/

/-- The spec's end-to-end example schema:
`{"type":"object","properties":{"n":{"type":"integer","minimum":1}},"required":["n"]}`. -/
def exampleIntSchema : JVal :=
  .obj [("type", .str "object"),
        ("properties", .obj [("n", .obj [("type", .str "integer"), ("minimum", .num 1)])]),
        ("required", .arr [.str "n"])]

/-- An object schema whose property `n` carries a field-level `oneOf` with a
string branch and a number branch. -/
def oneOfFieldSchema : JVal :=
  .obj [("type", .str "object"),
        ("properties", .obj [("n", .obj [("oneOf",
          .arr [.obj [("type", .str "string")], .obj [("type", .str "number")]])])])]

/-- C5: on `exampleIntSchema`, synthesis yields `{"n":1}`; validating
`{"n":0}` at `$` yields exactly `["$.n minimum 1"]`; validating `{}`
yields exactly `["$.n is required"]` — for any regular-expression oracles
and any selection store (neither is consulted). -/
theorem endToEnd_integer_example (rc : String → Bool) (rm : String → String → Bool)
    (store : List (String × Int)) :
    defaultFor exampleIntSchema 4 (pickRootSchema exampleIntSchema 0) = .obj [("n", .num 1)] ∧
    validateAgainst rc rm store exampleIntSchema 4 (pickRootSchema exampleIntSchema 0)
      (.obj [("n", .num 0)]) "$" = ["$.n minimum 1"] ∧
    validateAgainst rc rm store exampleIntSchema 4 (pickRootSchema exampleIntSchema 0)
      (.obj []) "$" = ["$.n is required"] :=
  ⟨rfl, rfl, rfl⟩

/-- C1: the field-level `oneOf` selection is recorded by
`renderInlineOneOf` under the slash-joined value-path key
(`pathKey(["n"]) = "n"`), but `validateAgainst` consults the store under
its dotted location string (`"$.n"`). A selection of branch 1 (number)
recorded under the `pathKey` key is therefore ignored — validation still
uses branch 0 (string) and reports a violation for the number value —
while the same selection stored under `"$.n"` would select branch 1. -/
theorem inlineOneOf_selection_key_mismatch :
    pathKey [JTok.name "n"] = "n" ∧
    validateAgainst (fun _ => false) (fun _ _ => false) [(pathKey [JTok.name "n"], 1)]
      oneOfFieldSchema 6 oneOfFieldSchema (.obj [("n", .num 5)]) "$" =
        ["$.n must be a string"] ∧
    validateAgainst (fun _ => false) (fun _ _ => false) [("$.n", 1)]
      oneOfFieldSchema 6 oneOfFieldSchema (.obj [("n", .num 5)]) "$" = [] :=
  ⟨rfl, rfl, rfl⟩

/-- C4 counterexample: an explicit `type` is returned verbatim by
`inferType`, so the result can lie outside the documented fixed set
{object, array, boolean, number, integer, string}. -/
theorem inferType_escapes_fixed_set :
    inferType (.obj [("type", .str "banana")]) = .str "banana" ∧
    ("banana" ∉ (["object", "array", "boolean", "number", "integer", "string"] :
      List String)) :=
  ⟨rfl, by decide⟩

/-- C4 (amended): when the node's `type` is falsy (in particular absent),
`inferType` lands in {object, array, number, string}, following the
truthiness cascade over `properties`/`additionalProperties`, `items` and
`enum`; a truthy `type` is returned verbatim (first element when a list)
and may lie outside the fixed set. -/
theorem inferType_fallback_codomain (node : JVal)
    (h : jTruthy (jIndexStr node "type") = false) :
    inferType node ∈
      ([.str "object", .str "array", .str "number", .str "string"] : List JVal) := by
  unfold inferType
  simp only [h, Bool.false_eq_true, if_false]
  by_cases h1 : (jTruthy (jIndexStr node "properties") ||
      jTruthy (jIndexStr node "additionalProperties")) = true
  · simp [h1]
  · simp only [h1, Bool.false_eq_true, if_false]
    by_cases h2 : jTruthy (jIndexStr node "items") = true
    · simp [h2]
    · simp only [h2, Bool.false_eq_true, if_false]
      by_cases h3 : jTruthy (jIndexStr node "enum") = true
      · simp only [h3, if_true]
        cases jIndexNat (jIndexStr node "enum") 0 <;> simp
      · simp [h3]

/-- Witness for the amended C4 statement at the empty object node. -/
theorem inferType_fallback_codomain_witness :
    jTruthy (jIndexStr (.obj []) "type") = false ∧
    inferType (.obj []) ∈
      ([.str "object", .str "array", .str "number", .str "string"] : List JVal) :=
  ⟨rfl, inferType_fallback_codomain (.obj []) rfl⟩

/-- C6 counterexample: the pointer `#/x` does resolve — to `false`, a
legal boolean schema — yet `resolveSchema` treats the falsy target as
"not found" and returns the node unchanged, not the claimed overlay
`{"title":"T"}` of the referenced value by the local keys. -/
theorem resolveSchema_falsy_target_counterexample :
    resolveSchema (.obj [("x", .bool false)])
        (.obj [("$ref", .str "#/x"), ("title", .str "T")]) =
      .obj [("$ref", .str "#/x"), ("title", .str "T")] ∧
    (JVal.obj [("$ref", .str "#/x"), ("title", .str "T")]) ≠ .obj [("title", .str "T")] :=
  ⟨rfl, by intro h; simp at h⟩

/-- C6 (amended): for a node with a `#/`-pointer `$ref`, a falsy target
(absent, but also `null`, `false`, `0` or `""` — all treated as "not
found") leaves the node unchanged; a target that is a (truthy) object
yields the referenced node's keys overlaid by the local node's own keys
except `$ref`, local keys winning on collision; the spec's `title`
override example holds as stated. -/
theorem resolveSchema_override :
    (∀ root fs r, jLookup fs "$ref" = some (.str r) → sStartsWith r "#/" = true →
      jTruthy (jsonPointerGet root r) = false → resolveSchema root (.obj fs) = .obj fs) ∧
    (∀ root fs tfs r k, jLookup fs "$ref" = some (.str r) → sStartsWith r "#/" = true →
      jsonPointerGet root r = .obj tfs → keysNodup fs = true → keysNodup tfs = true →
      k ≠ "$ref" →
      jIndexStr (resolveSchema root (.obj fs)) k =
        (optOr (jLookup fs k) (jLookup tfs k)).getD .undef) ∧
    resolveSchema (.obj [("x", .obj [("title", .str "X"), ("type", .str "string")])])
      (.obj [("$ref", .str "#/x"), ("title", .str "T")]) =
      .obj [("title", .str "T"), ("type", .str "string")] := by
  refine ⟨?_, ?_, rfl⟩
  · intro root fs r href hpre hfalsy
    simp [resolveSchema, href, hpre, hfalsy]
  · intro root fs tfs r k href hpre htgt hndf hndt hk
    simp only [resolveSchema, href, hpre, htgt, if_true, jTruthy, Bool.not_true,
      Bool.false_eq_true, if_false, jEntries, jIndexStr]
    rw [mergeSpread_lookup tfs (removeField fs "$ref") k hndt
      (keysNodup_removeField fs "$ref" hndf), removeField_lookup_ne fs "$ref" k hk]

/-- Witness for the amended C6 statement: resolving a `$ref` node with a
local `title` override against a root whose `#/x` is an object yields the
local `title`. -/
theorem resolveSchema_override_witness :
    jIndexStr (resolveSchema (.obj [("x", .obj [("ty", .str "X")])])
        (.obj [("$ref", .str "#/x"), ("title", .str "T")])) "title" = .str "T" := by
  have h := resolveSchema_override.2.1
    (.obj [("x", .obj [("ty", .str "X")])])
    [("$ref", .str "#/x"), ("title", .str "T")] [("ty", .str "X")] "#/x" "title"
    rfl rfl rfl (by decide) (by decide) (by decide)
  simpa using h

/-- C10: `resolveSchema` is a total function (it is structurally
non-recursive, so it terminates on every input, cyclic reference chains
included) performing at most one dereference: when the referenced target
itself carries a `$ref`, the result retains that inner `$ref` verbatim
rather than resolving further — concretely, resolving `{"$ref":"#/a"}`
against a root whose `a` refers back to itself returns a node still
carrying `"$ref":"#/a"`. -/
theorem resolveSchema_retains_inner_ref :
    (∀ root fs tfs r, jLookup fs "$ref" = some (.str r) → sStartsWith r "#/" = true →
      jsonPointerGet root r = .obj tfs → keysNodup fs = true → keysNodup tfs = true →
      jIndexStr (resolveSchema root (.obj fs)) "$ref" = (jLookup tfs "$ref").getD .undef) ∧
    resolveSchema (.obj [("a", .obj [("$ref", .str "#/a"), ("title", .str "X")])])
      (.obj [("$ref", .str "#/a")]) = .obj [("$ref", .str "#/a"), ("title", .str "X")] := by
  refine ⟨?_, rfl⟩
  intro root fs tfs r href hpre htgt hndf hndt
  simp only [resolveSchema, href, hpre, htgt, if_true, jTruthy, Bool.not_true,
    Bool.false_eq_true, if_false, jEntries, jIndexStr]
  rw [mergeSpread_lookup tfs (removeField fs "$ref") "$ref" hndt
    (keysNodup_removeField fs "$ref" hndf), removeField_lookup_self]
  rfl

/-- Witness for C10: in the self-referential example the resolved node's
`$ref` equals the target's own (unresolved) `$ref`. -/
theorem resolveSchema_retains_inner_ref_witness :
    jIndexStr (resolveSchema (.obj [("a", .obj [("$ref", .str "#/a"), ("title", .str "X")])])
        (.obj [("$ref", .str "#/a")])) "$ref" = .str "#/a" := by
  have h := resolveSchema_retains_inner_ref.1
    (.obj [("a", .obj [("$ref", .str "#/a"), ("title", .str "X")])])
    [("$ref", .str "#/a")] [("$ref", .str "#/a"), ("title", .str "X")] "#/a"
    rfl rfl rfl (by decide) (by decide)
  simpa using h

/-! Path model: the get-after-set round trip. -/

theorem listSet_getD (xs : List JVal) (i : Nat) (x : JVal) :
    (listSet xs i x).getD i .undef = x := by
  unfold listSet
  by_cases h : i < xs.length
  · simp [List.getD_eq_getElem?_getD, List.getElem?_set_self, h]
  · simp only [h, if_false]
    have hlen : xs.length ≤ i := Nat.le_of_not_lt h
    rw [List.getD_eq_getElem?_getD, List.append_assoc,
      List.getElem?_append_right hlen]
    have : i - xs.length < (List.replicate (i - xs.length) JVal.undef ++ [x]).length := by
      simp
    rw [List.getElem?_append_right (by simp)]
    simp

theorem setTok_shape (v : JVal) (t : JTok) (x t' : JVal)
    (h : setTok v t x = some t') :
    (∃ fs, t' = .obj fs) ∨ (∃ xs, t' = .arr xs) := by
  cases v with
  | obj fs =>
      cases t with
      | name s =>
          simp only [setTok, Option.some.injEq] at h
          exact Or.inl ⟨_, h.symm⟩
      | idx i =>
          simp only [setTok, Option.some.injEq] at h
          exact Or.inl ⟨_, h.symm⟩
  | arr xs =>
      cases t with
      | name s =>
          simp only [setTok] at h
          rcases h' : canonIdx s with _ | i <;> rw [h'] at h
          · cases h
          · simp only [Option.some.injEq] at h
            exact Or.inr ⟨_, h.symm⟩
      | idx i =>
          simp only [setTok, Option.some.injEq] at h
          exact Or.inr ⟨_, h.symm⟩
  | undef => cases t <;> cases h
  | null => cases t <;> cases h
  | bool b => cases t <;> cases h
  | num q => cases t <;> cases h
  | str s => cases t <;> cases h

theorem canonIdx_ne_length (s : String) (i : Nat) (h : canonIdx s = some i) :
    s ≠ "length" := by
  intro he
  subst he
  exact Option.noConfusion (h.symm.trans rfl)

theorem getTok_setTok (v : JVal) (t : JTok) (x t' : JVal)
    (h : setTok v t x = some t') : getTok t' t = x := by
  cases v with
  | obj fs =>
      cases t with
      | name s =>
          simp only [setTok, Option.some.injEq] at h
          subst h
          simp [getTok, jIndexStr, JTok.key, jsAssign_lookup]
      | idx i =>
          simp only [setTok, Option.some.injEq] at h
          subst h
          simp [getTok, jIndexNat, JTok.key, jsAssign_lookup]
  | arr xs =>
      cases t with
      | name s =>
          simp only [setTok] at h
          rcases h' : canonIdx s with _ | i <;> rw [h'] at h
          · cases h
          · simp only [Option.some.injEq] at h
            subst h
            have hs : s ≠ "length" := canonIdx_ne_length s i h'
            simp only [getTok, jIndexStr, if_neg hs, h']
            exact listSet_getD xs i x
      | idx i =>
          simp only [setTok, Option.some.injEq] at h
          subst h
          simp only [getTok, jIndexNat]
          exact listSet_getD xs i x
  | undef => cases t <;> cases h
  | null => cases t <;> cases h
  | bool b => cases t <;> cases h
  | num q => cases t <;> cases h
  | str s => cases t <;> cases h

/-- C3 (amended): reading a path after writing it returns the written
value, for every non-empty path on which the write succeeds (the write is
defined when the tree being written into is an object or array at each
step; the empty path is excluded — there the source assigns the property
named "undefined" instead, see the counterexample). -/
theorem deepGet_after_deepSet (p : List JTok) (tree v t' : JVal)
    (hne : p ≠ []) (hset : deepSet tree p v = some t') :
    deepGet t' p = v := by
  induction p generalizing tree t' with
  | nil => exact absurd rfl hne
  | cons t rest ih =>
      cases rest with
      | nil =>
          simp only [deepSet] at hset
          have hget := getTok_setTok tree t v t' hset
          rcases setTok_shape tree t v t' hset with ⟨fs, hfs⟩ | ⟨xs, hxs⟩
          · subst hfs
            simp only [deepGet]
            rw [hget]
          · subst hxs
            simp only [deepGet]
            rw [hget]
      | cons r rs =>
          simp only [deepSet] at hset
          rcases hsub : deepSet
              (match getTok tree t with
                | .obj fs => JVal.obj fs
                | .arr xs => JVal.arr xs
                | _ => JVal.obj []) (r :: rs) v with _ | sub
          · rw [hsub] at hset; cases hset
          · rw [hsub] at hset
            have hrec := ih _ _ (by simp) hsub
            have hget := getTok_setTok tree t sub t' hset
            rcases setTok_shape tree t sub t' hset with ⟨fs, hfs⟩ | ⟨xs, hxs⟩
            · subst hfs
              simp only [deepGet]
              rw [hget]
              exact hrec
            · subst hxs
              simp only [deepGet]
              rw [hget]
              exact hrec

/-- C3 counterexample: on the empty path the source writes the property
named "undefined" (`cur[path[-1]]` is `cur[undefined]`), while reading the
empty path returns the tree itself, so the round trip fails. -/
theorem deepSet_empty_path_counterexample :
    deepSet (.obj []) [] (.bool true) = some (.obj [("undefined", .bool true)]) ∧
    deepGet (.obj [("undefined", .bool true)]) [] ≠ .bool true :=
  ⟨rfl, fun h => nomatch h⟩

/-- Witness for the amended C3 round trip at a concrete two-step path. -/
theorem deepGet_after_deepSet_witness :
    deepSet (.obj []) [JTok.name "a", JTok.idx 0] (.num 3) =
      some (.obj [("a", .obj [("0", .num 3)])]) ∧
    deepGet (.obj [("a", .obj [("0", .num 3)])]) [JTok.name "a", JTok.idx 0] = .num 3 :=
  ⟨rfl, deepGet_after_deepSet [JTok.name "a", JTok.idx 0] (.obj []) (.num 3) _
    (by simp) rfl⟩

/-! Clamped `oneOf` branch access. -/

theorem resolveSchema_no_ref (root : JVal) (fs : List (String × JVal))
    (h : jLookup fs "$ref" = none) : resolveSchema root (.obj fs) = .obj fs := by
  simp [resolveSchema, h]

/-- C9: every stored `oneOf` branch index — the document-level one in
`pickRootSchema` and the field-level one in the validator's dispatch — is
clamped into `[0, length-1]` before use, so for a non-empty `oneOf` list
and any integer selection the accessed branch exists: the clamp is below
the length, `pickRootSchema` resolves exactly the branch at the clamped
index, and the validator recurses on exactly the branch at the clamped
index of the stored (or defaulted-to-0) selection. -/
theorem oneOf_branch_access_in_range :
    (∀ (idx : Int) (len : Nat), 0 < len → jsClampIdx idx len < len) ∧
    (∀ (schema : JVal) (branches : List JVal) (idx : Int),
      jIndexStr schema "oneOf" = .arr branches → branches ≠ [] →
      branches.get? (jsClampIdx idx branches.length) =
        some (branches.getD (jsClampIdx idx branches.length) .undef) ∧
      pickRootSchema schema idx =
        resolveSchema schema (branches.getD (jsClampIdx idx branches.length) .undef)) ∧
    (∀ (rc : String → Bool) (rm : String → String → Bool)
      (store : List (String × Int)) (root : JVal) (fuel : Nat)
      (fs : List (String × JVal)) (value : JVal) (loc : String) (bs : List JVal),
      jLookup fs "$ref" = none → jLookup fs "oneOf" = some (.arr bs) → bs ≠ [] →
      validateAgainst rc rm store root (fuel + 1) (.obj fs) value loc =
        validateAgainst rc rm store root fuel
          (bs.getD (jsClampIdx ((lookupSel store loc).getD 0) bs.length) .undef)
          value loc) := by
  have hclamp : ∀ (idx : Int) (len : Nat), 0 < len → jsClampIdx idx len < len := by
    intro idx len hlen
    unfold jsClampIdx
    omega
  refine ⟨hclamp, ?_, ?_⟩
  · intro schema branches idx hOneOf hne
    have hlen : 0 < branches.length := List.length_pos.mpr hne
    have hb := hclamp idx branches.length hlen
    constructor
    · rw [List.getD_eq_getElem?_getD, List.getElem?_eq_getElem hb]
      simp [List.get?_eq_getElem?, List.getElem?_eq_getElem hb]
    · unfold pickRootSchema
      rw [hOneOf]
      simp [Nat.pos_iff_ne_zero.mp hlen]
  · intro rc rm store root fuel fs value loc bs href hOneOf hne
    cases bs with
    | nil => exact absurd rfl hne
    | cons b0 bs' =>
        have hidx : jIndexStr (.obj fs) "oneOf" = .arr (b0 :: bs') := by
          simp [jIndexStr, hOneOf]
        rw [validateAgainst.eq_def]
        simp only [resolveSchema_no_ref root fs href, hidx]

/-- Witness for C9 at a one-branch `oneOf` with an out-of-range stored
selection (7): the clamp lands on index 0 and both dispatchers use it. -/
theorem oneOf_branch_access_in_range_witness :
    jsClampIdx 7 1 < 1 ∧
    pickRootSchema (.obj [("oneOf", .arr [.obj [("x", .num 1)]])]) 7 =
      resolveSchema (.obj [("oneOf", .arr [.obj [("x", .num 1)]])]) (.obj [("x", .num 1)]) ∧
    validateAgainst (fun _ => false) (fun _ _ => false) [("$", 7)] (.obj []) 1
      (.obj [("oneOf", .arr [.obj [("x", .num 1)]])]) (.str "s") "$" =
      validateAgainst (fun _ => false) (fun _ _ => false) [("$", 7)] (.obj []) 0
      (.obj [("x", .num 1)]) (.str "s") "$" := by
  refine ⟨oneOf_branch_access_in_range.1 7 1 (by decide), ?_, ?_⟩
  · have h := (oneOf_branch_access_in_range.2.1
      (.obj [("oneOf", .arr [.obj [("x", .num 1)]])]) [.obj [("x", .num 1)]] 7
      rfl (by simp)).2
    simpa using h
  · have h := oneOf_branch_access_in_range.2.2 (fun _ => false) (fun _ _ => false)
      [("$", 7)] (.obj []) 0 [("oneOf", .arr [.obj [("x", .num 1)]])] (.str "s") "$"
      [.obj [("x", .num 1)]] rfl rfl (by simp)
    simpa using h

/-! The `allOf` merge: shallow later-wins with unioned `properties` and
deduplicated `required`. -/

theorem svz_str_iff (x : JVal) (s : String) :
    jsSameValueZero x (.str s) = true ↔ x = .str s := by
  cases x <;> simp [jsSameValueZero]

theorem jTruthy_obj (fs : List (String × JVal)) : jTruthy (.obj fs) = true := rfl

theorem jTruthy_arr (xs : List JVal) : jTruthy (.arr xs) = true := rfl

theorem jEntries_obj (fs : List (String × JVal)) : jEntries (.obj fs) = fs := rfl

theorem iterElems_arr (xs : List JVal) : iterElems (.arr xs) = xs := rfl

theorem jIndexStr_obj (fs : List (String × JVal)) (k : String) :
    jIndexStr (.obj fs) k = (jLookup fs k).getD .undef := rfl

theorem jsDedupF_subset (fuel : Nat) (l : List JVal) (x : JVal)
    (h : x ∈ jsDedupF fuel l) : x ∈ l := by
  induction fuel generalizing l with
  | zero => cases l <;> simpa [jsDedupF] using h
  | succ f ih =>
      cases l with
      | nil => simpa [jsDedupF] using h
      | cons y ys =>
          simp only [jsDedupF, List.mem_cons] at h
          rcases h with h | h
          · exact h ▸ List.mem_cons_self _ _
          · exact List.mem_cons_of_mem _ (List.mem_of_mem_filter (ih _ h))

theorem jsDedupF_mem (fuel : Nat) (l : List JVal) (x : JVal)
    (hfuel : l.length ≤ fuel) (hstr : ∀ y ∈ l, ∃ s, y = JVal.str s)
    (h : x ∈ l) : x ∈ jsDedupF fuel l := by
  induction fuel generalizing l with
  | zero =>
      cases l with
      | nil => cases h
      | cons y ys => simp at hfuel
  | succ f ih =>
      cases l with
      | nil => cases h
      | cons y ys =>
          simp only [jsDedupF, List.mem_cons]
          rcases List.mem_cons.mp h with rfl | hx
          · exact Or.inl rfl
          · by_cases hsv : jsSameValueZero y x = true
            · left
              obtain ⟨s, rfl⟩ := hstr y (List.mem_cons_self _ _)
              exact ((svz_str_iff x s).mp (by
                cases x <;> simp [jsSameValueZero] at hsv ⊢ <;> simp_all [jsSameValueZero])).symm ▸ rfl
            · right
              refine ih (ys.filter (fun z => !jsSameValueZero y z)) ?_ ?_ ?_
              · exact le_trans (List.length_filter_le _ _) (Nat.succ_le_succ_iff.mp hfuel)
              · intro z hz
                exact hstr z (List.mem_cons_of_mem _ (List.mem_of_mem_filter hz))
              · exact List.mem_filter.mpr ⟨hx, by simp [hsv]⟩

theorem jsDedupF_nodup (fuel : Nat) (l : List JVal)
    (hfuel : l.length ≤ fuel)
    (hstr : ∀ y ∈ l, ∃ s, y = JVal.str s) : (jsDedupF fuel l).Nodup := by
  induction fuel generalizing l with
  | zero =>
      cases l with
      | nil => simp [jsDedupF]
      | cons y ys => simp at hfuel
  | succ f ih =>
      cases l with
      | nil => simp [jsDedupF]
      | cons y ys =>
          simp only [jsDedupF, List.nodup_cons]
          constructor
          · intro hmem
            have := (List.mem_filter.mp (jsDedupF_subset f _ y hmem)).2
            obtain ⟨s, rfl⟩ := hstr y (List.mem_cons_self _ _)
            simp [jsSameValueZero] at this
          · refine ih _ ?_ (fun z hz =>
              hstr z (List.mem_cons_of_mem _ (List.mem_of_mem_filter hz)))
            exact le_trans (List.length_filter_le _ _) (Nat.succ_le_succ_iff.mp hfuel)

/-- C7: `mergeSchemas` is a left-to-right shallow merge in which the later
node's keys override the earlier node's, except that `properties` maps are
unioned with later-wins per key and `required` lists are unioned as a
deduplicated set; merging the spec's two example nodes yields `required`
`["a","b"]` and a `properties` map containing both `a` and `b`. -/
theorem mergeSchemas_spec :
    (∀ afs bfs, keysNodup afs = true → keysNodup bfs = true →
      (∀ k, k ≠ "properties" → k ≠ "required" →
        jIndexStr (mergeSchemas (.obj afs) (.obj bfs)) k =
          (optOr (jLookup bfs k) (jLookup afs k)).getD .undef) ∧
      (∀ apfs bpfs, jLookup afs "properties" = some (.obj apfs) →
        jLookup bfs "properties" = some (.obj bpfs) →
        keysNodup apfs = true → keysNodup bpfs = true →
        ∀ k, jIndexStr (jIndexStr (mergeSchemas (.obj afs) (.obj bfs)) "properties") k =
          (optOr (jLookup bpfs k) (jLookup apfs k)).getD .undef) ∧
      (∀ ars brs, jLookup afs "required" = some (.arr ars) →
        jLookup bfs "required" = some (.arr brs) →
        (∀ x ∈ ars ++ brs, ∃ s, x = JVal.str s) →
        ∃ us, jIndexStr (mergeSchemas (.obj afs) (.obj bfs)) "required" = .arr us ∧
          (∀ x, x ∈ us ↔ x ∈ ars ++ brs) ∧ us.Nodup)) ∧
    mergeSchemas
      (.obj [("properties", .obj [("a", .obj [("type", .str "string")])]),
             ("required", .arr [.str "a"])])
      (.obj [("properties", .obj [("b", .obj [("type", .str "number")])]),
             ("required", .arr [.str "b"])]) =
    .obj [("properties", .obj [("a", .obj [("type", .str "string")]),
                               ("b", .obj [("type", .str "number")])]),
          ("required", .arr [.str "a", .str "b"])] := by
  refine ⟨?_, rfl⟩
  intro afs bfs hna hnb
  refine ⟨?_, ?_, ?_⟩
  · intro k hk1 hk2
    simp only [mergeSchemas, jEntries, jIndexStr]
    by_cases hp : (jTruthy ((jLookup afs "properties").getD .undef) ||
        jTruthy ((jLookup bfs "properties").getD .undef)) = true <;>
      by_cases hr : (jTruthy ((jLookup afs "required").getD .undef) ||
        jTruthy ((jLookup bfs "required").getD .undef)) = true <;>
      simp only [hp, hr, if_true, if_false, Bool.false_eq_true, jsAssign_lookup,
        Ne.symm hk1, Ne.symm hk2, if_neg, mergeSpread_lookup afs bfs k hna hnb]
  · intro apfs bpfs ha hb hnap hnbp k
    have hmid : jIndexStr (mergeSchemas (.obj afs) (.obj bfs)) "properties" =
        .obj (mergeSpread apfs bpfs) := by
      simp only [mergeSchemas, jIndexStr_obj, ha, hb, Option.getD_some, jTruthy_obj,
        Bool.or_self, if_true, jEntries_obj]
      split
      · rw [jsAssign_lookup, if_neg (by decide), jsAssign_lookup, if_pos rfl]
        rfl
      · rw [jsAssign_lookup, if_pos rfl]
        rfl
    rw [hmid, jIndexStr_obj, mergeSpread_lookup apfs bpfs k hnap hnbp]
  · intro ars brs ha hb hstr
    refine ⟨jsDedup (ars ++ brs), ?_, ?_, ?_⟩
    · simp only [mergeSchemas, jIndexStr_obj, ha, hb, Option.getD_some, jTruthy_arr,
        Bool.or_self, if_true, iterElems_arr]
      rw [jsAssign_lookup, if_pos rfl]
      rfl
    · intro x
      constructor
      · exact fun h => jsDedupF_subset _ _ x h
      · exact fun h => jsDedupF_mem _ _ x (le_refl _) hstr h
    · exact jsDedupF_nodup _ _ (le_refl _) hstr

/-- Witness for C7 on two concrete nodes: the later node's `title` wins,
the earlier node's `type` shows through, and the merged `properties` map
holds both keys. -/
theorem mergeSchemas_spec_witness :
    jIndexStr (mergeSchemas (.obj [("type", .str "object"), ("title", .str "A"),
        ("properties", .obj [("a", .obj [("type", .str "string")])])])
      (.obj [("title", .str "B"),
        ("properties", .obj [("b", .obj [("type", .str "number")])])])) "title" =
      .str "B" ∧
    jIndexStr (jIndexStr (mergeSchemas (.obj [("type", .str "object"), ("title", .str "A"),
        ("properties", .obj [("a", .obj [("type", .str "string")])])])
      (.obj [("title", .str "B"),
        ("properties", .obj [("b", .obj [("type", .str "number")])])])) "properties") "a" =
      .obj [("type", .str "string")] := by
  have hgen := mergeSchemas_spec.1
    [("type", .str "object"), ("title", .str "A"),
      ("properties", .obj [("a", .obj [("type", .str "string")])])]
    [("title", .str "B"), ("properties", .obj [("b", .obj [("type", .str "number")])])]
    (by decide) (by decide)
  constructor
  · have h := hgen.1 "title" (by decide) (by decide)
    simpa using h
  · have h := hgen.2.1 [("a", .obj [("type", .str "string")])]
      [("b", .obj [("type", .str "number")])] rfl rfl (by decide) (by decide) "a"
    simpa using h

/-! The invalid-pattern path of the validator. -/

theorem jTruthy_undef : jTruthy .undef = false := rfl

/-- C8: a node whose `pattern` fails to compile (`rc` rejects its coerced
source text) validates every value exactly as the same node with the
`pattern` field removed: the pattern check is skipped, never fatal (the
embedded validator is a total function), and the rest of validation is
unchanged — for every value, location, selection store, oracle `rm` and
fuel. -/
theorem invalid_pattern_skipped (rc : String → Bool) (rm : String → String → Bool)
    (store : List (String × Int)) (root : JVal) (fuel : Nat)
    (fs : List (String × JVal)) (value : JVal) (loc : String)
    (href : jLookup fs "$ref" = none)
    (hrc : rc (jsValToString (jIndexStr (.obj fs) "pattern")) = false) :
    validateAgainst rc rm store root fuel (.obj fs) value loc =
      validateAgainst rc rm store root fuel (.obj (removeField fs "pattern")) value loc := by
  cases fuel with
  | zero => rfl
  | succ f =>
      have hne : ∀ k : String, k ≠ "pattern" →
          jIndexStr (.obj (removeField fs "pattern")) k = jIndexStr (.obj fs) k := by
        intro k hk
        simp only [jIndexStr_obj, removeField_lookup_ne fs "pattern" k hk]
      have hOne := hne "oneOf" (by decide)
      have hType := hne "type" (by decide)
      have hProps := hne "properties" (by decide)
      have hReq := hne "required" (by decide)
      have hAp := hne "additionalProperties" (by decide)
      have hMinI := hne "minItems" (by decide)
      have hMaxI := hne "maxItems" (by decide)
      have hItems := hne "items" (by decide)
      have hMin := hne "minimum" (by decide)
      have hMax := hne "maximum" (by decide)
      have hEnum := hne "enum" (by decide)
      have hPat : jIndexStr (.obj (removeField fs "pattern")) "pattern" = .undef := by
        simp only [jIndexStr_obj, removeField_lookup_self]
        rfl
      have hInfer : inferType (.obj (removeField fs "pattern")) = inferType (.obj fs) := by
        simp only [inferType, hType, hProps, hAp, hItems, hEnum]
      have hR : resolveSchema root (.obj fs) = .obj fs := resolveSchema_no_ref _ _ href
      have hR' : resolveSchema root (.obj (removeField fs "pattern")) =
          .obj (removeField fs "pattern") := by
        refine resolveSchema_no_ref _ _ ?_
        rw [removeField_lookup_ne fs "pattern" "$ref" (by decide)]
        exact href
      have hep : ∀ s : String,
          (if rc (jsValToString (jIndexStr (.obj fs) "pattern")) = true then
            if (!rm (jsValToString (jIndexStr (.obj fs) "pattern")) s) = true then
              [loc ++ " does not match pattern"] else []
          else []) = [] := by
        intro s
        rw [hrc]
        simp
      conv_lhs => rw [validateAgainst.eq_def]
      conv_rhs => rw [validateAgainst.eq_def]
      simp only [hR, hR', hOne, hType, hProps, hReq, hAp, hMinI, hMaxI, hItems,
        hMin, hMax, hEnum, hPat, hInfer, hep, jTruthy_undef, Bool.false_eq_true,
        if_false, ite_self]

/-- Witness for C8: a string node whose pattern `(` is rejected by the
compile oracle produces no violation on a matching string value. -/
theorem invalid_pattern_skipped_witness :
    validateAgainst (fun _ => false) (fun _ _ => false) [] (.obj [])
      1 (.obj [("type", .str "string"), ("pattern", .str "(")]) (.str "hi") "$" =
      validateAgainst (fun _ => false) (fun _ _ => false) [] (.obj [])
      1 (.obj (removeField [("type", .str "string"), ("pattern", .str "(")] "pattern"))
        (.str "hi") "$" ∧
    validateAgainst (fun _ => false) (fun _ _ => false) [] (.obj [])
      1 (.obj [("type", .str "string"), ("pattern", .str "(")]) (.str "hi") "$" = [] :=
  ⟨invalid_pattern_skipped (fun _ => false) (fun _ _ => false) [] (.obj []) 1
    [("type", .str "string"), ("pattern", .str "(")] (.str "hi") "$" rfl rfl, rfl⟩

/-! Self-validity of synthesized defaults. -/

/-- The field list of a node's `properties` map (empty when absent or not
an object). -/
def propsFields (fs : List (String × JVal)) : List (String × JVal) :=
  match jLookup fs "properties" with
  | some (.obj pfs) => pfs
  | _ => []

/-- The guarded class of schema nodes on which default synthesis is
self-valid, with an explicit depth `d` bounding the recursion (and hence
the fuel both engines need). A node in the class is an object without
`$ref` (so resolution is the identity), without `default` and without
`enum`; a non-empty `oneOf` delegates to its first branch; otherwise, by
inferred type: objects need duplicate-free, object-valued property schemas
covering every `required` name (each in the class); arrays must not carry
a positive numeric `minItems` or negative numeric `maxItems`; integers
need an integral (or absent) numeric `minimum`; numeric nodes need
`maximum` at least the synthesized value; string-ish nodes need a falsy
`pattern`. Everything else (booleans; `additionalProperties`; non-numeric
bound fields; extra keys) is unconstrained. -/
def selfValid : Nat → JVal → Bool
  | 0, _ => false
  | d + 1, node =>
    match node with
    | .obj fs =>
        (jLookup fs "$ref").isNone &&
        (jLookup fs "default").isNone &&
        (jLookup fs "enum").isNone &&
        (match jLookup fs "oneOf" with
         | some (.arr (b :: _)) => selfValid d b
         | none =>
            let t := inferType (.obj fs)
            if jIsStr t "object" then
              (match jLookup fs "properties" with
               | none => true
               | some (.obj pfs) => keysNodup pfs
               | some _ => false) &&
              (match jLookup fs "required" with
               | none => true
               | some (.arr rs) =>
                   rs.all (fun r =>
                     match r with
                     | .str s =>
                         (match jLookup (propsFields fs) s with
                          | some psch => selfValid d psch
                          | none => false)
                     | _ => false)
               | some _ => false)
            else if jIsStr t "array" then
              (match jLookup fs "minItems" with
               | some (.num m) => decide (m ≤ 0)
               | _ => true) &&
              (match jLookup fs "maxItems" with
               | some (.num m) => decide (0 ≤ m)
               | _ => true)
            else if jIsStr t "boolean" then true
            else if jIsStr t "number" || jIsStr t "integer" then
              (if jIsStr t "integer" then
                 (match jLookup fs "minimum" with
                  | some (.num m) => m.den == 1
                  | _ => true)
               else true) &&
              (match jLookup fs "maximum" with
               | some (.num mx) =>
                   decide ((match jLookup fs "minimum" with
                            | some (.num mn) => mn
                            | _ => 0) ≤ mx)
               | _ => true)
            else !jTruthy ((jLookup fs "pattern").getD .undef)
         | some _ => false)
    | _ => false

/-- C2 counterexample: for `{"type":"object","required":["x"]}` the
synthesized default is `{}` (only required names carried by `properties`
are synthesized), yet validation reports the missing required `x`: default
synthesis is not self-valid for every schema. -/
theorem default_not_self_valid_counterexample :
    defaultFor (.obj [("type", .str "object"), ("required", .arr [.str "x"])]) 3
      (.obj [("type", .str "object"), ("required", .arr [.str "x"])]) = .obj [] ∧
    validateAgainst (fun _ => false) (fun _ _ => false) []
      (.obj [("type", .str "object"), ("required", .arr [.str "x"])]) 3
      (.obj [("type", .str "object"), ("required", .arr [.str "x"])]) (.obj []) "$" =
      ["$.x is required"] :=
  ⟨rfl, rfl⟩

theorem jLookup_none_mem (l : List (String × JVal)) (k : String)
    (h : jLookup l k = none) : ∀ kv ∈ l, kv.1 ≠ k := by
  induction l with
  | nil => intro kv hkv; cases hkv
  | cons kv0 rest ih =>
      obtain ⟨k0, v0⟩ := kv0
      intro kv hkv
      by_cases hk : k0 = k
      · rw [jLookup, if_pos hk] at h
        cases h
      · rw [jLookup, if_neg hk] at h
        rcases List.mem_cons.mp hkv with rfl | hmem
        · exact hk
        · exact ih h kv hmem

theorem jsAssign_append (l : List (String × JVal)) (k : String) (x : JVal)
    (h : jLookup l k = none) : jsAssign l (k, x) = l ++ [(k, x)] := by
  induction l with
  | nil => rfl
  | cons kv0 rest ih =>
      obtain ⟨k0, v0⟩ := kv0
      by_cases hk : k0 = k
      · rw [jLookup, if_pos hk] at h
        cases h
      · rw [jLookup, if_neg hk] at h
        simp only [jsAssign, if_neg hk, List.cons_append, List.cons.injEq, true_and]
        exact ih h

theorem foldl_assign_filterMap (p : String → Bool) (g : JVal → JVal) :
    ∀ (pfs acc : List (String × JVal)), keysNodup pfs = true →
    (∀ kv ∈ pfs, jLookup acc kv.1 = none) →
    pfs.foldl (fun acc kv => if p kv.1 then jsAssign acc (kv.1, g kv.2) else acc) acc =
      acc ++ pfs.filterMap (fun kv => if p kv.1 then some (kv.1, g kv.2) else none) := by
  intro pfs
  induction pfs with
  | nil => intro acc _ _; simp
  | cons kv0 rest ih =>
      obtain ⟨k0, v0⟩ := kv0
      intro acc hnd hdisj
      obtain ⟨hne, hnd'⟩ := (keysNodup_cons k0 v0 rest).mp hnd
      by_cases hp : p k0 = true
      · simp only [List.foldl_cons, List.filterMap_cons, hp, if_true]
        rw [jsAssign_append acc k0 (g v0) (hdisj (k0, v0) (List.mem_cons_self _ _))]
        rw [ih (acc ++ [(k0, g v0)]) hnd' ?_]
        · simp
        · intro kv hkv
          rw [jLookup_append]
          rw [hdisj kv (List.mem_cons_of_mem _ hkv)]
          have hne2 : kv.1 ≠ k0 := hne kv hkv
          simp [optOr, jLookup, Ne.symm hne2]
      · simp only [List.foldl_cons, List.filterMap_cons, hp, if_false,
          Bool.false_eq_true]
        exact ih acc hnd' (fun kv hkv => hdisj kv (List.mem_cons_of_mem _ hkv))

theorem filterMap_assign_lookup (p : String → Bool) (g : JVal → JVal)
    (pfs : List (String × JVal)) (hnd : keysNodup pfs = true) (k : String) :
    jLookup (pfs.filterMap (fun kv => if p kv.1 then some (kv.1, g kv.2) else none)) k =
      (match jLookup pfs k with
       | some v => if p k then some (g v) else none
       | none => none) := by
  induction pfs with
  | nil => rfl
  | cons kv0 rest ih =>
      obtain ⟨k0, v0⟩ := kv0
      obtain ⟨hne, hnd'⟩ := (keysNodup_cons k0 v0 rest).mp hnd
      by_cases hk : k0 = k
      · subst hk
        by_cases hp : p k0 = true
        · simp only [List.filterMap_cons, hp, if_true, jLookup, if_pos rfl]
        · simp only [List.filterMap_cons, hp, if_false, Bool.false_eq_true, jLookup,
            if_pos rfl]
          have hnone : jLookup rest k0 = none :=
            jLookup_eq_none rest k0 (fun kv hkv => hne kv hkv)
          rw [ih hnd', hnone]
          simp
      · by_cases hp : p k0 = true
        · simp only [List.filterMap_cons, hp, if_true, jLookup, if_neg hk]
          exact ih hnd'
        · simp only [List.filterMap_cons, hp, if_false, Bool.false_eq_true, jLookup,
            if_neg hk]
          exact ih hnd'

theorem mem_filterMap_out (p : String → Bool) (g : JVal → JVal)
    (pfs : List (String × JVal)) (kv : String × JVal)
    (h : kv ∈ pfs.filterMap (fun kv => if p kv.1 then some (kv.1, g kv.2) else none)) :
    ∃ v, (kv.1, v) ∈ pfs ∧ p kv.1 = true ∧ kv.2 = g v := by
  obtain ⟨⟨k1, v1⟩, hmem, hf⟩ := List.mem_filterMap.mp h
  by_cases hp : p k1 = true
  · rw [if_pos hp] at hf
    cases hf
    exact ⟨v1, hmem, hp, rfl⟩
  · rw [if_neg hp] at hf
    cases hf

theorem isUndef_undef : isUndef .undef = true := rfl

theorem isUndef_obj (fs : List (String × JVal)) : isUndef (.obj fs) = false := rfl

theorem selfValid_obj (d : Nat) (x : JVal) (h : selfValid d x = true) :
    ∃ fs, x = .obj fs := by
  cases d with
  | zero => simp [selfValid] at h
  | succ d =>
      cases x with
      | obj fs => exact ⟨fs, rfl⟩
      | undef => simp [selfValid] at h
      | null => simp [selfValid] at h
      | bool b => simp [selfValid] at h
      | num q => simp [selfValid] at h
      | str s => simp [selfValid] at h
      | arr xs => simp [selfValid] at h

theorem defaultFor_ne_undef : ∀ (d : Nat) (node root : JVal) (fd : Nat),
    selfValid d node = true → d ≤ fd → isUndef (defaultFor root fd node) = false := by
  intro d
  induction d with
  | zero => intro node root fd h _; simp [selfValid] at h
  | succ d ih =>
      intro node root fd h hfd
      obtain ⟨fs, rfl⟩ := selfValid_obj _ _ h
      simp only [selfValid, Bool.and_eq_true, Option.isNone_iff_eq_none] at h
      obtain ⟨⟨⟨href, hdef⟩, henum⟩, hrest⟩ := h
      cases fd with
      | zero => omega
      | succ fd =>
          have hres : resolveSchema root (.obj fs) = .obj fs :=
            resolveSchema_no_ref _ _ href
          have hd : jIndexStr (.obj fs) "default" = .undef := by
            rw [jIndexStr_obj, hdef]; rfl
          have he : jIndexStr (.obj fs) "enum" = .undef := by
            rw [jIndexStr_obj, henum]; rfl
          rw [defaultFor.eq_def]
          cases honeOf : jLookup fs "oneOf" with
          | none =>
              have ho : jIndexStr (.obj fs) "oneOf" = .undef := by
                rw [jIndexStr_obj, honeOf]; rfl
              simp only [hres, hd, he, ho, isUndef_undef, Bool.not_true,
                Bool.false_eq_true, if_false]
              split
              · split <;> rfl
              · split
                · rfl
                · split
                  · rfl
                  · split
                    · split <;> rfl
                    · rfl
          | some ov =>
              rw [honeOf] at hrest
              have ho : jIndexStr (.obj fs) "oneOf" = ov := by
                rw [jIndexStr_obj, honeOf]; rfl
              cases ov with
              | arr bs =>
                  cases bs with
                  | nil => simp at hrest
                  | cons b bs' =>
                      simp only [hres, hd, he, ho, isUndef_undef, Bool.not_true,
                        Bool.false_eq_true, if_false]
                      exact ih b root fd hrest (by omega)
              | undef => simp at hrest
              | null => simp at hrest
              | bool bb => simp at hrest
              | num q => simp at hrest
              | str s => simp at hrest
              | obj ofs => simp at hrest

theorem flatMap_eq_nil_of {α β : Type} (l : List α) (f : α → List β)
    (h : ∀ a ∈ l, f a = []) : l.flatMap f = [] := by
  induction l with
  | nil => rfl
  | cons a rest ih =>
      rw [List.flatMap_cons, h a (List.mem_cons_self _ _),
        ih (fun x hx => h x (List.mem_cons_of_mem _ hx))]
      rfl

/-- Soundness of the guarded class: synthesizing the default of a node in
the class and validating it (with the default, empty selection store)
yields no violations, for any fuel at least the class depth. -/
theorem selfValid_sound : ∀ (d : Nat) (node root : JVal) (rc : String → Bool)
    (rm : String → String → Bool) (fd fv : Nat) (loc : String),
    selfValid d node = true → d ≤ fd → d ≤ fv →
    validateAgainst rc rm [] root fv node (defaultFor root fd node) loc = [] := by
  intro d
  induction d with
  | zero => intro node root rc rm fd fv loc h _ _; simp [selfValid] at h
  | succ d ih =>
    intro node root rc rm fd fv loc h hfd hfv
    obtain ⟨fs, rfl⟩ := selfValid_obj _ _ h
    simp only [selfValid, Bool.and_eq_true, Option.isNone_iff_eq_none] at h
    obtain ⟨⟨⟨href, hdef⟩, henum⟩, hrest⟩ := h
    cases fd with
    | zero => omega
    | succ fd =>
    cases fv with
    | zero => omega
    | succ fv =>
    have hdfd : d ≤ fd := by omega
    have hdfv : d ≤ fv := by omega
    have hres : resolveSchema root (.obj fs) = .obj fs := resolveSchema_no_ref _ _ href
    have hd : jIndexStr (.obj fs) "default" = .undef := by rw [jIndexStr_obj, hdef]; rfl
    have he : jIndexStr (.obj fs) "enum" = .undef := by rw [jIndexStr_obj, henum]; rfl
    cases honeOf : jLookup fs "oneOf" with
    | some ov =>
        rw [honeOf] at hrest
        have ho : jIndexStr (.obj fs) "oneOf" = ov := by rw [jIndexStr_obj, honeOf]; rfl
        cases ov with
        | arr bs =>
            cases bs with
            | nil => simp at hrest
            | cons b bs' =>
                have hDval : defaultFor root (fd + 1) (.obj fs) = defaultFor root fd b := by
                  rw [defaultFor.eq_def]
                  simp only [hres, hd, ho, isUndef_undef, Bool.not_true,
                    Bool.false_eq_true, if_false]
                have hclamp0 : jsClampIdx ((lookupSel [] loc).getD 0) (b :: bs').length = 0 := by
                  show jsClampIdx 0 (bs'.length + 1) = 0
                  unfold jsClampIdx
                  omega
                rw [hDval, validateAgainst.eq_def]
                simp only [hres, ho, hclamp0, List.getD_cons_zero]
                exact ih b root rc rm fd fv loc hrest hdfd hdfv
        | undef => simp at hrest
        | null => simp at hrest
        | bool bb => simp at hrest
        | num q => simp at hrest
        | str s => simp at hrest
        | obj ofs => simp at hrest
    | none =>
      rw [honeOf] at hrest
      have ho : jIndexStr (.obj fs) "oneOf" = .undef := by rw [jIndexStr_obj, honeOf]; rfl
      by_cases hobj : jIsStr (inferType (.obj fs)) "object" = true
      · -- object case
        simp only [hobj, if_true, Bool.and_eq_true] at hrest
        obtain ⟨hprop, hreq⟩ := hrest
        obtain ⟨pfsv, hpv_nodup, hpv_fields, hpv_engine⟩ :
            ∃ pfsv, keysNodup pfsv = true ∧ propsFields fs = pfsv ∧
              truthyOr (jIndexStr (.obj fs) "properties") (.obj []) = .obj pfsv := by
          cases hpl : jLookup fs "properties" with
          | none =>
              refine ⟨[], rfl, ?_, ?_⟩
              · rw [propsFields, hpl]
              · rw [jIndexStr_obj, hpl]
                rfl
          | some pv =>
              rw [hpl] at hprop
              cases pv with
              | obj p =>
                  refine ⟨p, by simpa using hprop, ?_, ?_⟩
                  · rw [propsFields, hpl]
                  · rw [jIndexStr_obj, hpl]
                    rfl
              | undef => simp at hprop
              | null => simp at hprop
              | bool bb => simp at hprop
              | num q => simp at hprop
              | str s => simp at hprop
              | arr xs => simp at hprop
        obtain ⟨reqv, hrv_engine, hrv_all⟩ :
            ∃ reqv, iterElems (truthyOr (jIndexStr (.obj fs) "required") (.arr [])) = reqv ∧
              (∀ r ∈ reqv, ∃ s psch, r = .str s ∧ jLookup pfsv s = some psch ∧
                selfValid d psch = true) := by
          cases hrl : jLookup fs "required" with
          | none =>
              refine ⟨[], ?_, by intro r hr; cases hr⟩
              rw [jIndexStr_obj, hrl]
              rfl
          | some rv =>
              rw [hrl] at hreq
              cases rv with
              | arr rs =>
                  refine ⟨rs, ?_, ?_⟩
                  · rw [jIndexStr_obj, hrl]
                    rfl
                  · intro r hr
                    have hall := List.all_eq_true.mp (by simpa using hreq) r hr
                    cases r with
                    | str s =>
                        simp only [] at hall
                        cases hpsl : jLookup (propsFields fs) s with
                        | none =>
                            rw [hpsl] at hall
                            simp at hall
                        | some psch =>
                            rw [hpsl] at hall
                            rw [hpv_fields] at hpsl
                            exact ⟨s, psch, rfl, hpsl, by simpa using hall⟩
                    | undef => simp at hall
                    | null => simp at hall
                    | bool bb => simp at hall
                    | num q => simp at hall
                    | arr xs => simp at hall
                    | obj ofs => simp at hall
              | undef => simp at hreq
              | null => simp at hreq
              | bool bb => simp at hreq
              | num q => simp at hreq
              | str s => simp at hreq
              | obj ofs => simp at hreq
        have hfold := foldl_assign_filterMap
          (fun k => reqv.any (fun r => jsSameValueZero r (.str k)))
          (defaultFor root fd) pfsv [] hpv_nodup (fun kv _ => rfl)
        have hDval : defaultFor root (fd + 1) (.obj fs) =
            .obj (pfsv.filterMap (fun kv =>
              if reqv.any (fun r => jsSameValueZero r (.str kv.1)) then
                some (kv.1, defaultFor root fd kv.2) else none)) := by
          rw [defaultFor.eq_def]
          simp only [hres, hd, he, ho, isUndef_undef, Bool.not_true,
            Bool.false_eq_true, if_false, hobj, if_true, hpv_engine, hrv_engine,
            jEntries_obj]
          rw [hfold]
          simp only [List.nil_append]
          split
          · next hcond =>
              rw [Bool.and_eq_true] at hcond
              obtain ⟨hemp, _⟩ := hcond
              have hnil : pfsv = [] := List.isEmpty_iff.mp hemp
              subst hnil
              rfl
          · rfl
        -- the synthesized object, abbreviated
        set outv : List (String × JVal) := pfsv.filterMap (fun kv =>
          if reqv.any (fun r => jsSameValueZero r (.str kv.1)) then
            some (kv.1, defaultFor root fd kv.2) else none) with houtv
        have hlook_out : ∀ k, jLookup outv k =
            (match jLookup pfsv k with
             | some v => if reqv.any (fun r => jsSameValueZero r (.str k)) then
                 some (defaultFor root fd v) else none
             | none => none) := by
          intro k
          rw [houtv]
          exact filterMap_assign_lookup
            (fun k => reqv.any (fun r => jsSameValueZero r (.str k)))
            (defaultFor root fd) pfsv hpv_nodup k
        have hmem_out : ∀ kv ∈ outv, ∃ v, (kv.1, v) ∈ pfsv ∧
            reqv.any (fun r => jsSameValueZero r (.str kv.1)) = true ∧
            kv.2 = defaultFor root fd v := by
          intro kv hkv
          rw [houtv] at hkv
          exact mem_filterMap_out
            (fun k => reqv.any (fun r => jsSameValueZero r (.str k)))
            (defaultFor root fd) pfsv kv hkv
        have hselfValid_of_any : ∀ k psch, jLookup pfsv k = some psch →
            reqv.any (fun r => jsSameValueZero r (.str k)) = true →
            selfValid d psch = true := by
          intro k psch hlk hany
          obtain ⟨r, hrmem, hrsvz⟩ := List.any_eq_true.mp hany
          obtain ⟨s, psch', rfl, hlk', hsv'⟩ := hrv_all r hrmem
          have hseq : s = k := by simpa [jsSameValueZero] using hrsvz
          subst hseq
          rw [hlk] at hlk'
          cases hlk'
          exact hsv'
        rw [hDval, validateAgainst.eq_def]
        simp only [hres, ho, hobj, if_true, hpv_engine, hrv_engine, jEntries_obj]
        have h1 : reqv.filterMap (fun r =>
            if isUndef (jIndexStr (.obj outv) (jsValToString r)) then
              some (loc ++ "." ++ jsValToString r ++ " is required")
            else none) = [] := by
          rw [List.filterMap_eq_nil_iff]
          intro r hr
          obtain ⟨s, psch, rfl, hlk, hsv⟩ := hrv_all r hr
          have hany : reqv.any (fun r => jsSameValueZero r (.str s)) = true :=
            List.any_eq_true.mpr ⟨.str s, hr, by simp [jsSameValueZero]⟩
          have hv : jIndexStr (.obj outv) (jsValToString (.str s)) =
              defaultFor root fd psch := by
            show jIndexStr (.obj outv) s = defaultFor root fd psch
            rw [jIndexStr_obj, hlook_out s, hlk]
            simp only [hany, if_true, Option.getD_some]
          rw [hv, defaultFor_ne_undef d psch root fd hsv hdfd]
          simp
        have h2 : pfsv.flatMap (fun kv =>
            if isUndef (jIndexStr (.obj outv) kv.1) then []
            else validateAgainst rc rm [] root fv kv.2 (jIndexStr (.obj outv) kv.1)
              (loc ++ "." ++ kv.1)) = [] := by
          apply flatMap_eq_nil_of
          intro kv hkv
          by_cases hany : reqv.any (fun r => jsSameValueZero r (.str kv.1)) = true
          · have hlk : jLookup pfsv kv.1 = some kv.2 :=
              mem_lookup_of_nodup pfsv kv.1 kv.2 hpv_nodup hkv
            have hv : jIndexStr (.obj outv) kv.1 = defaultFor root fd kv.2 := by
              rw [jIndexStr_obj, hlook_out kv.1, hlk]
              simp only [hany, if_true, Option.getD_some]
            rw [hv, defaultFor_ne_undef d kv.2 root fd
              (hselfValid_of_any kv.1 kv.2 hlk hany) hdfd]
            simp only [Bool.false_eq_true, if_false]
            exact ih kv.2 root rc rm fd fv (loc ++ "." ++ kv.1)
              (hselfValid_of_any kv.1 kv.2 hlk hany) hdfd hdfv
          · have hv : jIndexStr (.obj outv) kv.1 = .undef := by
              rw [jIndexStr_obj, hlook_out kv.1]
              cases hlk : jLookup pfsv kv.1 with
              | none => rfl
              | some v =>
                  simp only [Bool.not_eq_true] at hany
                  simp [hany]
            rw [hv]
            simp [isUndef_undef]
        have h3 : ∀ apv, (match apv with
            | JVal.obj apfs =>
                outv.flatMap (fun kv =>
                  if jTruthy (jIndexStr (.obj pfsv) kv.1) then []
                  else validateAgainst rc rm [] root fv
                    (resolveSchema root apv) kv.2 (loc ++ "." ++ kv.1))
            | JVal.arr axs =>
                outv.flatMap (fun kv =>
                  if jTruthy (jIndexStr (.obj pfsv) kv.1) then []
                  else validateAgainst rc rm [] root fv
                    (resolveSchema root apv) kv.2 (loc ++ "." ++ kv.1))
            | _ => ([] : List String)) = [] := by
          intro apv
          have hloop : outv.flatMap (fun kv =>
              if jTruthy (jIndexStr (.obj pfsv) kv.1) then []
              else validateAgainst rc rm [] root fv
                (resolveSchema root apv) kv.2 (loc ++ "." ++ kv.1)) = [] := by
            apply flatMap_eq_nil_of
            intro kv hkv
            obtain ⟨v, hvmem, hany, _⟩ := hmem_out kv hkv
            have hlk : jLookup pfsv kv.1 = some v :=
              mem_lookup_of_nodup pfsv kv.1 v hpv_nodup hvmem
            obtain ⟨vfs, rfl⟩ := selfValid_obj d v (hselfValid_of_any kv.1 v hlk hany)
            rw [jIndexStr_obj, hlk]
            simp [jTruthy_obj]
          cases apv <;> simp [hloop]
        simp only [h1, h2]
        simp only [List.nil_append]
        exact h3 (jIndexStr (.obj fs) "additionalProperties")
      · -- non-object cases
        by_cases harr : jIsStr (inferType (.obj fs)) "array" = true
        · -- array case
          simp only [hobj, harr, Bool.false_eq_true, if_false, if_true,
            Bool.and_eq_true] at hrest
          obtain ⟨hmin, hmax⟩ := hrest
          have hDval : defaultFor root (fd + 1) (.obj fs) = .arr [] := by
            rw [defaultFor.eq_def]
            simp only [hres, hd, he, ho, isUndef_undef, Bool.not_true,
              Bool.false_eq_true, if_false, hobj, harr, if_true]
          rw [hDval, validateAgainst.eq_def]
          simp only [hres, ho, hobj, harr, Bool.false_eq_true, if_false, if_true]
          have e1 : (match jIndexStr (.obj fs) "minItems" with
              | JVal.num m => if ((([] : List JVal).length : Rat) < m) then
                  [loc ++ " minItems " ++ jsNumToString m] else []
              | _ => ([] : List String)) = [] := by
            cases hml : jLookup fs "minItems" with
            | none => rw [jIndexStr_obj, hml]; rfl
            | some mv =>
                rw [jIndexStr_obj, hml]
                rw [hml] at hmin
                cases mv with
                | num m =>
                    have hm : m ≤ 0 := by simpa using hmin
                    simp only [Option.getD_some, List.length_nil, Nat.cast_zero]
                    rw [if_neg (not_lt.mpr hm)]
                | undef => rfl
                | null => rfl
                | bool bb => rfl
                | str s => rfl
                | arr xs => rfl
                | obj ofs => rfl
          have e2 : (match jIndexStr (.obj fs) "maxItems" with
              | JVal.num m => if ((([] : List JVal).length : Rat) > m) then
                  [loc ++ " maxItems " ++ jsNumToString m] else []
              | _ => ([] : List String)) = [] := by
            cases hml : jLookup fs "maxItems" with
            | none => rw [jIndexStr_obj, hml]; rfl
            | some mv =>
                rw [jIndexStr_obj, hml]
                rw [hml] at hmax
                cases mv with
                | num m =>
                    have hm : 0 ≤ m := by simpa using hmax
                    simp only [Option.getD_some, List.length_nil, Nat.cast_zero]
                    rw [if_neg (not_lt.mpr hm)]
                | undef => rfl
                | null => rfl
                | bool bb => rfl
                | str s => rfl
                | arr xs => rfl
                | obj ofs => rfl
          simp only [e1, e2]
          simp
        · by_cases hbool : jIsStr (inferType (.obj fs)) "boolean" = true
          · have hDval : defaultFor root (fd + 1) (.obj fs) = .bool false := by
              rw [defaultFor.eq_def]
              simp only [hres, hd, he, ho, isUndef_undef, Bool.not_true,
                Bool.false_eq_true, if_false, hobj, harr, hbool, if_true]
            rw [hDval, validateAgainst.eq_def]
            simp only [hres, ho, hobj, harr, hbool, Bool.false_eq_true, if_false,
              if_true]
            rfl
          · by_cases hnum : (jIsStr (inferType (.obj fs)) "number" ||
                jIsStr (inferType (.obj fs)) "integer") = true
            · -- number / integer case
              simp only [hobj, harr, hbool, hnum, Bool.false_eq_true, if_false,
                if_true, Bool.and_eq_true] at hrest
              obtain ⟨hint, hmax⟩ := hrest
              -- the synthesized numeric value
              obtain ⟨dv, hDval, hden, hdvmin⟩ :
                  ∃ dv : Rat, defaultFor root (fd + 1) (.obj fs) = .num dv ∧
                    (jIsStr (inferType (.obj fs)) "integer" = true → dv.den = 1) ∧
                    (match jLookup fs "minimum" with
                     | some (.num mn) => dv = mn
                     | _ => dv = 0) := by
                cases hml : jLookup fs "minimum" with
                | none =>
                    refine ⟨0, ?_, fun _ => rfl, rfl⟩
                    rw [defaultFor.eq_def]
                    simp only [hres, hd, he, ho, isUndef_undef, Bool.not_true,
                      Bool.false_eq_true, if_false, hobj, harr, hbool, hnum, if_true]
                    rw [jIndexStr_obj, hml]
                    have hni : (jIsStr (inferType (.obj fs)) "integer" ||
                        jIsStr (inferType (.obj fs)) "number") = true := by
                      rcases (by simpa using hnum :
                          jIsStr (inferType (.obj fs)) "number" = true ∨
                          jIsStr (inferType (.obj fs)) "integer" = true) with hh | hh <;>
                        simp [hh]
                    simp [hni]
                | some mv =>
                    cases mv with
                    | num m =>
                        refine ⟨m, ?_, ?_, rfl⟩
                        · rw [defaultFor.eq_def]
                          simp only [hres, hd, he, ho, isUndef_undef, Bool.not_true,
                            Bool.false_eq_true, if_false, hobj, harr, hbool, hnum,
                            if_true]
                          rw [jIndexStr_obj, hml]
                          have hni : (jIsStr (inferType (.obj fs)) "integer" ||
                              jIsStr (inferType (.obj fs)) "number") = true := by
                            rcases (by simpa using hnum :
                          jIsStr (inferType (.obj fs)) "number" = true ∨
                          jIsStr (inferType (.obj fs)) "integer" = true) with hh | hh <;>
                        simp [hh]
                          simp [hni]
                        · intro hi
                          rw [hi, hml] at hint
                          simpa using hint
                    | undef =>
                        refine ⟨0, ?_, fun _ => rfl, rfl⟩
                        rw [defaultFor.eq_def]
                        simp only [hres, hd, he, ho, isUndef_undef, Bool.not_true,
                          Bool.false_eq_true, if_false, hobj, harr, hbool, hnum,
                          if_true]
                        rw [jIndexStr_obj, hml]
                        have hni : (jIsStr (inferType (.obj fs)) "integer" ||
                            jIsStr (inferType (.obj fs)) "number") = true := by
                          rcases (by simpa using hnum :
                          jIsStr (inferType (.obj fs)) "number" = true ∨
                          jIsStr (inferType (.obj fs)) "integer" = true) with hh | hh <;>
                        simp [hh]
                        simp [hni]
                    | null =>
                        refine ⟨0, ?_, fun _ => rfl, rfl⟩
                        rw [defaultFor.eq_def]
                        simp only [hres, hd, he, ho, isUndef_undef, Bool.not_true,
                          Bool.false_eq_true, if_false, hobj, harr, hbool, hnum,
                          if_true]
                        rw [jIndexStr_obj, hml]
                        have hni : (jIsStr (inferType (.obj fs)) "integer" ||
                            jIsStr (inferType (.obj fs)) "number") = true := by
                          rcases (by simpa using hnum :
                          jIsStr (inferType (.obj fs)) "number" = true ∨
                          jIsStr (inferType (.obj fs)) "integer" = true) with hh | hh <;>
                        simp [hh]
                        simp [hni]
                    | bool bb =>
                        refine ⟨0, ?_, fun _ => rfl, rfl⟩
                        rw [defaultFor.eq_def]
                        simp only [hres, hd, he, ho, isUndef_undef, Bool.not_true,
                          Bool.false_eq_true, if_false, hobj, harr, hbool, hnum,
                          if_true]
                        rw [jIndexStr_obj, hml]
                        have hni : (jIsStr (inferType (.obj fs)) "integer" ||
                            jIsStr (inferType (.obj fs)) "number") = true := by
                          rcases (by simpa using hnum :
                          jIsStr (inferType (.obj fs)) "number" = true ∨
                          jIsStr (inferType (.obj fs)) "integer" = true) with hh | hh <;>
                        simp [hh]
                        simp [hni]
                    | str s =>
                        refine ⟨0, ?_, fun _ => rfl, rfl⟩
                        rw [defaultFor.eq_def]
                        simp only [hres, hd, he, ho, isUndef_undef, Bool.not_true,
                          Bool.false_eq_true, if_false, hobj, harr, hbool, hnum,
                          if_true]
                        rw [jIndexStr_obj, hml]
                        have hni : (jIsStr (inferType (.obj fs)) "integer" ||
                            jIsStr (inferType (.obj fs)) "number") = true := by
                          rcases (by simpa using hnum :
                          jIsStr (inferType (.obj fs)) "number" = true ∨
                          jIsStr (inferType (.obj fs)) "integer" = true) with hh | hh <;>
                        simp [hh]
                        simp [hni]
                    | arr xs =>
                        refine ⟨0, ?_, fun _ => rfl, rfl⟩
                        rw [defaultFor.eq_def]
                        simp only [hres, hd, he, ho, isUndef_undef, Bool.not_true,
                          Bool.false_eq_true, if_false, hobj, harr, hbool, hnum,
                          if_true]
                        rw [jIndexStr_obj, hml]
                        have hni : (jIsStr (inferType (.obj fs)) "integer" ||
                            jIsStr (inferType (.obj fs)) "number") = true := by
                          rcases (by simpa using hnum :
                          jIsStr (inferType (.obj fs)) "number" = true ∨
                          jIsStr (inferType (.obj fs)) "integer" = true) with hh | hh <;>
                        simp [hh]
                        simp [hni]
                    | obj ofs =>
                        refine ⟨0, ?_, fun _ => rfl, rfl⟩
                        rw [defaultFor.eq_def]
                        simp only [hres, hd, he, ho, isUndef_undef, Bool.not_true,
                          Bool.false_eq_true, if_false, hobj, harr, hbool, hnum,
                          if_true]
                        rw [jIndexStr_obj, hml]
                        have hni : (jIsStr (inferType (.obj fs)) "integer" ||
                            jIsStr (inferType (.obj fs)) "number") = true := by
                          rcases (by simpa using hnum :
                          jIsStr (inferType (.obj fs)) "number" = true ∨
                          jIsStr (inferType (.obj fs)) "integer" = true) with hh | hh <;>
                        simp [hh]
                        simp [hni]
              rw [hDval, validateAgainst.eq_def]
              simp only [hres, ho, he, hobj, harr, hbool, hnum, Bool.false_eq_true,
                if_false, if_true]
              have e2 : (jIsStr (inferType (.obj fs)) "integer" &&
                  !jsIsInteger (.num dv)) = false := by
                by_cases hi : jIsStr (inferType (.obj fs)) "integer" = true
                · have := hden hi
                  simp [hi, jsIsInteger, this]
                · have hif : jIsStr (inferType (.obj fs)) "integer" = false := by
                    simpa using hi
                  simp [hif]
              have e3 : (match jIndexStr (.obj fs) "minimum" with
                  | JVal.num m => if jsLtNum (.num dv) m then
                      [loc ++ " minimum " ++ jsNumToString m] else []
                  | _ => ([] : List String)) = [] := by
                cases hml : jLookup fs "minimum" with
                | none => rw [jIndexStr_obj, hml]; rfl
                | some mv =>
                    rw [jIndexStr_obj, hml]
                    rw [hml] at hdvmin
                    cases mv with
                    | num m =>
                        simp only [Option.getD_some]
                        rw [hdvmin]
                        simp [jsLtNum, jsToNumber]
                    | undef => rfl
                    | null => rfl
                    | bool bb => rfl
                    | str s => rfl
                    | arr xs => rfl
                    | obj ofs => rfl
              have e4 : (match jIndexStr (.obj fs) "maximum" with
                  | JVal.num m => if jsGtNum (.num dv) m then
                      [loc ++ " maximum " ++ jsNumToString m] else []
                  | _ => ([] : List String)) = [] := by
                cases hml : jLookup fs "maximum" with
                | none => rw [jIndexStr_obj, hml]; rfl
                | some mv =>
                    rw [jIndexStr_obj, hml]
                    rw [hml] at hmax
                    cases mv with
                    | num m =>
                        simp only [Option.getD_some]
                        have hle : dv ≤ m := by
                          cases hml2 : jLookup fs "minimum" with
                          | none =>
                              rw [hml2] at hdvmin hmax
                              rw [hdvmin]
                              simpa using hmax
                          | some mv2 =>
                              rw [hml2] at hdvmin hmax
                              cases mv2 with
                              | num m2 =>
                                  rw [hdvmin]
                                  simpa using hmax
                              | undef => rw [hdvmin]; simpa using hmax
                              | null => rw [hdvmin]; simpa using hmax
                              | bool bb => rw [hdvmin]; simpa using hmax
                              | str s => rw [hdvmin]; simpa using hmax
                              | arr xs => rw [hdvmin]; simpa using hmax
                              | obj ofs => rw [hdvmin]; simpa using hmax
                        simp [jsGtNum, jsToNumber, not_lt.mpr hle]
                    | undef => rfl
                    | null => rfl
                    | bool bb => rfl
                    | str s => rfl
                    | arr xs => rfl
                    | obj ofs => rfl
              simp only [e2, e3, e4, Bool.false_eq_true, if_false]
              simp
            · -- string-ish default case
              simp only [hobj, harr, hbool, hnum, Bool.false_eq_true, if_false] at hrest
              have hDval : defaultFor root (fd + 1) (.obj fs) = .str "" := by
                rw [defaultFor.eq_def]
                simp only [hres, hd, he, ho, isUndef_undef, Bool.not_true,
                  Bool.false_eq_true, if_false, hobj, harr, hbool, hnum, if_true]
                have hni : jIsStr (inferType (.obj fs)) "integer" = false ∧
                    jIsStr (inferType (.obj fs)) "number" = false := by
                  constructor <;>
                    (cases hh : jIsStr (inferType (.obj fs)) "integer") <;>
                    (cases hh2 : jIsStr (inferType (.obj fs)) "number") <;>
                    simp_all
                simp [hni.1, hni.2]
              rw [hDval, validateAgainst.eq_def]
              simp only [hres, ho, he, hobj, harr, hbool, hnum, Bool.false_eq_true,
                if_false]
              have hpatF : jTruthy (jIndexStr (.obj fs) "pattern") = false := by
                rw [jIndexStr_obj]
                simpa using hrest
              simp [hpatF]

/-- C2 (amended): default synthesis is self-valid not for every schema but
for every schema document whose effective root (the branch
`pickRootSchema` selects at the default document-level index 0) lies in
the guarded class `selfValid d`: ref-free object nodes without `default`
or `enum`, whose non-empty `oneOf` delegates to its first branch, whose
required names are all carried by in-class property schemas with
duplicate-free keys, without positive numeric `minItems` or negative
`maxItems`, with integral (or absent) `minimum` on integer nodes,
`maximum` at least the synthesized value, and falsy `pattern` on
string-ish nodes. For such documents, synthesizing the default and
validating it against the same effective root with the default (empty)
variant selections yields zero violations, for any fuel at least `d`. -/
theorem default_synthesis_self_valid (S : JVal) (d fd fv : Nat)
    (rc : String → Bool) (rm : String → String → Bool)
    (h : selfValid d (pickRootSchema S 0) = true) (hfd : d ≤ fd) (hfv : d ≤ fv) :
    validateAgainst rc rm [] S fv (pickRootSchema S 0)
      (defaultFor S fd (pickRootSchema S 0)) "$" = [] :=
  selfValid_sound d (pickRootSchema S 0) S rc rm fd fv "$" h hfd hfv

/-- Witness for the amended C2 at the spec's example schema, which lies in
the guarded class at depth 2. -/
theorem default_synthesis_self_valid_witness :
    selfValid 2 (pickRootSchema exampleIntSchema 0) = true ∧
    validateAgainst (fun _ => false) (fun _ _ => false) [] exampleIntSchema 2
      (pickRootSchema exampleIntSchema 0)
      (defaultFor exampleIntSchema 2 (pickRootSchema exampleIntSchema 0)) "$" = [] :=
  ⟨by decide, default_synthesis_self_valid exampleIntSchema 2 2 2
    (fun _ => false) (fun _ _ => false) (by decide) (le_refl 2) (le_refl 2)⟩

end SchemaEngine
